import Mathlib

/-!
# sport-common: identifier generation and bearer-token verification

A shallow embedding of `pkg/utils/snowflake.go`, `pkg/middleware/jwt.go` and
`pkg/middleware/auth_middleware.go`, together with the parts of the Go standard
library and of the two third-party packages (`bwmarrin/snowflake`,
`golang-jwt/jwt/v5`) that these files call.

Conventions.
* A Go `string` / `[]byte` is the list of its bytes.
* Go's fixed-width integers are natural numbers or integers, reduced explicitly
  where the source can overflow.
* Every function that reads the clock takes its readings as arguments.
* A Go `(value, error)` result is an `Except`; a Go `error` is its text and
  the texts of the errors it wraps.
* `encoding/json` is an argument `D : Deps` of the functions that marshal or
  unmarshal; `jsonDeps` is a reference instance, used where a statement is about
  one concrete token, and shown to read back the claims of every token that
  `GenerateToken` issues: as they were written for an email that is valid
  UTF-8, and with the dates as they were written for every email. base64url, SHA-256 and HMAC are defined in full.
* A middleware is modelled by what it does with a request: the response it
  writes, or the call of the next handler with the user id it stores.

The file has two parts: the definitions, then the theorems.
-/

namespace SportCommon

/-! ## Part I. Definitions -/

/-! ### Go strings and integers -/

/-- One byte. -/
abbrev Byte := Fin 256

/-- A Go string or byte slice: its bytes in order. -/
abbrev Bytes := List Byte

/-- The bytes of an ASCII string literal. -/
def str (s : String) : Bytes := s.toList.map (fun c => Fin.ofNat c.toNat)

/-- An integer reduced to the range of `int64` (two's complement wrap-around). -/
def wrapInt64 (x : Int) : Int := (x + 2 ^ 63) % 2 ^ 64 - 2 ^ 63

/-- Go `x << k` on `int64`. -/
def shl64 (x : Int) (k : Nat) : Int := wrapInt64 (x * 2 ^ k)

/-- Go `strconv.Itoa` for a non-negative number. -/
def Itoa (n : Nat) : Bytes := str (toString n)

/-- Go `strings.HasPrefix(s, p)`. -/
def HasPrefix : Bytes → Bytes → Bool
  | _, [] => true
  | [], _ :: _ => false
  | c :: s, d :: p => c == d && HasPrefix s p

/-- Go `strings.TrimPrefix(s, p)`: `s` without the leading `p` when `s` starts
with `p`, and `s` itself otherwise. -/
def TrimPrefix (s p : Bytes) : Bytes :=
  if HasPrefix s p then s.drop p.length else s

/-- Go `strings.Split(s, sep)` for a one-byte separator: the segments between
the occurrences of `sep` (always at least one segment). -/
def Split (sep : Byte) : Bytes → List Bytes
  | [] => [[]]
  | c :: s =>
    if c = sep then [] :: Split sep s
    else
      match Split sep s with
      | [] => [[c]]
      | seg :: segs => (c :: seg) :: segs

/-- A Go error value: the text `Error()` returns, and the sentinel errors that
`errors.Is` finds in its chain (by their texts). -/
structure GoError where
  text : Bytes
  chain : List Bytes
deriving DecidableEq

/-- Go `errors.New(text)`. -/
def GoError.new (text : Bytes) : GoError := { text := text, chain := [text] }

/-- Go `errors.Is(err, target)` for a sentinel `target`. -/
def GoError.Is (err target : GoError) : Bool := decide (target.text ∈ err.chain)

/-! ### `hash/fnv` -/

/-- The constant `offset32` of `hash/fnv`. -/
def offset32 : Nat := 2166136261

/-- The constant `prime32` of `hash/fnv`. -/
def prime32 : Nat := 16777619

/-- The method `(*sum32a).Write`: one FNV-1a step per byte, in `uint32`. -/
def sum32aWrite (hash : Nat) : Bytes → Nat
  | [] => hash
  | c :: data => sum32aWrite (((hash ^^^ c.val) * prime32) % 2 ^ 32) data

/-- The result of `h := fnv.New32a(); h.Write(data); h.Sum32()`. -/
def fnv32a (data : Bytes) : Nat := sum32aWrite offset32 data

/-! ### `net` -/

/-- The type `net.IP`: a byte slice, of length 4 or 16 when it is an address. -/
abbrev IP := Bytes

/-- The constant `net.IPv4len`. -/
def IPv4len : Nat := 4

/-- The constant `net.IPv6len`. -/
def IPv6len : Nat := 16

/-- The variable `net.IPv6loopback`, the address `::1`. -/
def IPv6loopback : IP := [0, 0, 0, 0, 0, 0, 0, 0, 0, 0, 0, 0, 0, 0, 0, 1]

/-- The variable `v4InV6Prefix` of `net`. -/
def v4InV6Prefix : Bytes := [0, 0, 0, 0, 0, 0, 0, 0, 0, 0, 0xff, 0xff]

/-- The function `isZeros` of `net`. -/
def isZeros (p : Bytes) : Bool := p.all (fun b => b == 0)

/-- The method `IP.To4`: the 4-byte form of an IPv4 address (given in 4 bytes or
as an IPv4-mapped 16-byte address), `none` for Go's `nil`. -/
def IP.To4 (ip : IP) : Option IP :=
  if ip.length = IPv4len then some ip
  else if ip.length = IPv6len ∧ isZeros (ip.take 10) = true
      ∧ ip.get? 10 = some 0xff ∧ ip.get? 11 = some 0xff then
    some (ip.drop 12)
  else none

/-- The method `IP.Equal`. -/
def IP.Equal (ip x : IP) : Bool :=
  if ip.length = x.length then ip == x
  else if ip.length = IPv4len ∧ x.length = IPv6len then
    x.take 12 == v4InV6Prefix && ip == x.drop 12
  else if ip.length = IPv6len ∧ x.length = IPv4len then
    ip.take 12 == v4InV6Prefix && ip.drop 12 == x
  else false

/-- The method `IP.IsLoopback`. -/
def IP.IsLoopback (ip : IP) : Bool :=
  match ip.To4 with
  | some ip4 => ip4.head? == some 127
  | none => ip.Equal IPv6loopback

/-- A value of the interface `net.Addr` as `net.InterfaceAddrs` returns it: a
`*net.IPNet`, or a value of another type. -/
inductive Addr where
  | IPNet (ip : IP) (mask : Bytes)
  | other (network text : Bytes)
deriving DecidableEq

/-! ### `pkg/utils/snowflake.go`: the node identifier -/

/-- The loop of `getNodeIDFromIP` (lines 33-46) over the interface addresses. -/
def scanAddrs : List Addr → Int
  | [] => 1
  | Addr.IPNet ip _ :: addrs =>
    if !ip.IsLoopback then
      match ip.To4 with
      | some ip4 => ((fnv32a ip4 % 1024 : Nat) : Int)
      | none => scanAddrs addrs
    else scanAddrs addrs
  | Addr.other _ _ :: addrs => scanAddrs addrs

/-- The function `getNodeIDFromIP`; its argument is what `net.InterfaceAddrs()`
returned. -/
def getNodeIDFromIP (interfaceAddrs : Except GoError (List Addr)) : Int :=
  match interfaceAddrs with
  | .error _ => 1
  | .ok addrs => scanAddrs addrs

/-- The address the NodeID is derived from, in the words of the specification:
a non-loopback IPv4 address. -/
def isNonLoopbackIPv4 : Addr → Bool
  | Addr.IPNet ip _ => !ip.IsLoopback && ip.To4.isSome
  | Addr.other _ _ => false

/-- The four bytes of an interface address that is an IPv4 address. -/
def ipv4Bytes : Addr → Bytes
  | Addr.IPNet ip _ => (ip.To4).getD []
  | Addr.other _ _ => []

/-- The NodeID in the words of the specification: the FNV-1a hash of the four
bytes of the first non-loopback IPv4 address, modulo 1024, and 1 when there is
no such address. -/
def nodeIDSpec (addrs : List Addr) : Int :=
  match addrs.find? isNonLoopbackIPv4 with
  | some a => ((fnv32a (ipv4Bytes a) % 1024 : Nat) : Int)
  | none => 1

/-! ### `bwmarrin/snowflake` -/

/-- The variable `snowflake.Epoch` (milliseconds). -/
def Epoch : Int := 1288834974657

/-- The variable `snowflake.NodeBits`. -/
def NodeBits : Nat := 10

/-- The variable `snowflake.StepBits`. -/
def StepBits : Nat := 12

/-- The type `snowflake.Node` without its mutex and its epoch; the clock
readings `time.Since(n.epoch).Milliseconds()` are arguments of `Generate`. -/
structure Node where
  time : Int
  node : Int
  step : Int
  nodeMax : Int
  nodeMask : Int
  stepMask : Int
  timeShift : Nat
  nodeShift : Nat
deriving DecidableEq

/-- The function `snowflake.NewNode`. -/
def NewNode (node : Int) : Except GoError Node :=
  let nodeMax : Int := 2 ^ NodeBits - 1
  if node < 0 ∨ node > nodeMax then
    .error (GoError.new (str "Node number must be between 0 and " ++ Itoa nodeMax.toNat))
  else
    .ok { time := 0, node := node, step := 0, nodeMax := nodeMax,
          nodeMask := shl64 nodeMax StepBits, stepMask := 2 ^ StepBits - 1,
          timeShift := NodeBits + StepBits, nodeShift := StepBits }

/-- The loop `for now <= n.time { now = time.Since(n.epoch).Milliseconds() }` of
`Generate`: it reads the clock until a reading is later than `last`, and gives
that reading with the readings left; `none` when the readings run out first. -/
def waitNext (last : Int) : Int → List Int → Option (Int × List Int)
  | now, clock =>
    if now ≤ last then
      match clock with
      | [] => none
      | r :: rest => waitNext last r rest
    else some (now, clock)

/-- The identifier `Generate` assembles: `now<<timeShift | node<<nodeShift | step`. -/
def Node.pack (n : Node) (now step : Int) : Int :=
  Int.lor (Int.lor (shl64 now n.timeShift) (shl64 n.node n.nodeShift)) step

/-- The method `(*Node).Generate`. `clock` holds the successive readings of the
clock; the result is the identifier, the node's new state and the readings not
yet consumed, or `none` when the readings run out before the call returns. -/
def Node.Generate (n : Node) : List Int → Option (Int × Node × List Int)
  | [] => none
  | now :: clock =>
    if now = n.time then
      let step := Int.land (wrapInt64 (n.step + 1)) n.stepMask
      if step = 0 then
        match waitNext n.time now clock with
        | none => none
        | some (now', clock') =>
          some (n.pack now' step, { n with time := now', step := step }, clock')
      else
        some (n.pack now step, { n with time := now, step := step }, clock)
    else
      some (n.pack now 0, { n with time := now, step := 0 }, clock)

/-! ### `pkg/utils/snowflake.go`: the generator -/

/-- The function `init` of `snowflake.go`: the package variable `node`, or the
error it panics with. -/
def init (interfaceAddrs : Except GoError (List Addr)) : Except GoError Node :=
  NewNode (getNodeIDFromIP interfaceAddrs)

/-- The function `GenerateID`, on the package variable `node`. -/
def GenerateID (node : Node) (clock : List Int) : Option (Int × Node × List Int) :=
  node.Generate clock

/-- The identifiers returned by at most `calls` successive calls of `GenerateID`,
each call starting from the state and the clock the previous one left. -/
def generateIDs : Nat → Node → List Int → List Int
  | 0, _, _ => []
  | calls + 1, node, clock =>
    match GenerateID node clock with
    | none => []
    | some (id, node', clock') => id :: generateIDs calls node' clock'

/-- The state of a node made by `NewNode`, at any time: the constants of the
layout, and the fields within their ranges. -/
def Node.wellFormed (n : Node) : Prop :=
  n.stepMask = 4095 ∧ n.timeShift = 22 ∧ n.nodeShift = 12 ∧ 0 ≤ n.node ∧ n.node ≤ 1023
    ∧ 0 ≤ n.step ∧ n.step ≤ 4095 ∧ 0 ≤ n.time

/-- The identifier a node issued last, as a sum of its three fields. -/
def Node.last (n : Node) : Int := n.time * 2 ^ 22 + n.node * 2 ^ 12 + n.step

/-! ### `encoding/base64`: `RawURLEncoding` -/

/-- The alphabet `encodeURL` of `encoding/base64`. -/
def encodeURL : Bytes :=
  str "ABCDEFGHIJKLMNOPQRSTUVWXYZabcdefghijklmnopqrstuvwxyz0123456789-_"

/-- The letter of a 6-bit value. -/
def encodeSextet (v : Nat) : Byte := encodeURL.getD v 0

/-- The 6-bit values `Encode` cuts its input into: four for every three bytes,
and two or three for a last group of one or two bytes (no padding). -/
def sextets : Bytes → List Nat
  | b0 :: b1 :: b2 :: src =>
    b0.val / 4 :: (b0.val % 4 * 16 + b1.val / 16) :: (b1.val % 16 * 4 + b2.val / 64) ::
      b2.val % 64 :: sextets src
  | [b0, b1] => [b0.val / 4, b0.val % 4 * 16 + b1.val / 16, b1.val % 16 * 4]
  | [b0] => [b0.val / 4, b0.val % 4 * 16]
  | [] => []

/-- The method `RawURLEncoding.EncodeToString`. -/
def EncodeToString (src : Bytes) : Bytes := (sextets src).map encodeSextet

/-- The table `decodeMap` of `RawURLEncoding`: the 6-bit value of a letter of
the alphabet, `none` (Go's `0xff`) for any other byte. -/
def decodeSextet (c : Byte) : Option Nat :=
  if 65 ≤ c.val ∧ c.val ≤ 90 then some (c.val - 65)
  else if 97 ≤ c.val ∧ c.val ≤ 122 then some (c.val - 97 + 26)
  else if 48 ≤ c.val ∧ c.val ≤ 57 then some (c.val - 48 + 52)
  else if c.val = 45 then some 62
  else if c.val = 95 then some 63
  else none

/-- The 6-bit values of the letters of `src`, read from input position `si`;
`\n` and `\r` are skipped, and any other byte outside the alphabet is an error
at its position. -/
def decodeSextets : Nat → Bytes → Except Nat (List Nat)
  | _, [] => .ok []
  | si, c :: src =>
    match decodeSextet c with
    | some v =>
      match decodeSextets (si + 1) src with
      | .ok vs => .ok (v :: vs)
      | .error e => .error e
    | none =>
      if c.val = 10 ∨ c.val = 13 then decodeSextets (si + 1) src
      else .error si

/-- The bytes of a list of 6-bit values: three for every four values, one or
two for a last group of two or three (spare low bits are dropped, the encoding
not being strict), and `none` for a last group of a single value. -/
def decodeQuanta : List Nat → Option Bytes
  | v0 :: v1 :: v2 :: v3 :: vs =>
    match decodeQuanta vs with
    | some bs =>
      some (Fin.ofNat (v0 * 4 + v1 / 16) :: Fin.ofNat (v1 % 16 * 16 + v2 / 4) ::
        Fin.ofNat (v2 % 4 * 64 + v3) :: bs)
    | none => none
  | [v0, v1, v2] => some [Fin.ofNat (v0 * 4 + v1 / 16), Fin.ofNat (v1 % 16 * 16 + v2 / 4)]
  | [v0, v1] => some [Fin.ofNat (v0 * 4 + v1 / 16)]
  | [_] => none
  | [] => some []

/-- The error `base64.CorruptInputError(pos)`. -/
def CorruptInputError (pos : Nat) : GoError :=
  GoError.new (str "illegal base64 data at input byte " ++ Itoa pos)

/-- The method `RawURLEncoding.DecodeString`. -/
def DecodeString (s : Bytes) : Except GoError Bytes :=
  match decodeSextets 0 s with
  | .error si => .error (CorruptInputError si)
  | .ok vs =>
    match decodeQuanta vs with
    | some bs => .ok bs
    | none => .error (CorruptInputError (s.length - 1))

/-! ### `crypto/sha256` and `crypto/hmac` -/

/-- Rotation to the right of a 32-bit word. -/
def rotr (x n : Nat) : Nat := (x >>> n ||| x <<< (32 - n)) % 2 ^ 32

/-- The round constants of SHA-256. -/
def K256 : List Nat := [
  0x428a2f98, 0x71374491, 0xb5c0fbcf, 0xe9b5dba5, 0x3956c25b, 0x59f111f1, 0x923f82a4, 0xab1c5ed5,
  0xd807aa98, 0x12835b01, 0x243185be, 0x550c7dc3, 0x72be5d74, 0x80deb1fe, 0x9bdc06a7, 0xc19bf174,
  0xe49b69c1, 0xefbe4786, 0x0fc19dc6, 0x240ca1cc, 0x2de92c6f, 0x4a7484aa, 0x5cb0a9dc, 0x76f988da,
  0x983e5152, 0xa831c66d, 0xb00327c8, 0xbf597fc7, 0xc6e00bf3, 0xd5a79147, 0x06ca6351, 0x14292967,
  0x27b70a85, 0x2e1b2138, 0x4d2c6dfc, 0x53380d13, 0x650a7354, 0x766a0abb, 0x81c2c92e, 0x92722c85,
  0xa2bfe8a1, 0xa81a664b, 0xc24b8b70, 0xc76c51a3, 0xd192e819, 0xd6990624, 0xf40e3585, 0x106aa070,
  0x19a4c116, 0x1e376c08, 0x2748774c, 0x34b0bcb5, 0x391c0cb3, 0x4ed8aa4a, 0x5b9cca4f, 0x682e6ff3,
  0x748f82ee, 0x78a5636f, 0x84c87814, 0x8cc70208, 0x90befffa, 0xa4506ceb, 0xbef9a3f7, 0xc67178f2]

/-- The big-endian 32-bit words of a byte string. -/
def beWords : Bytes → List Nat
  | a :: b :: c :: d :: rest =>
    (a.val * 2 ^ 24 + b.val * 2 ^ 16 + c.val * 2 ^ 8 + d.val) :: beWords rest
  | _ => []

/-- The four bytes of a 32-bit word, most significant first. -/
def beBytes (w : Nat) : Bytes :=
  [Fin.ofNat (w / 2 ^ 24), Fin.ofNat (w / 2 ^ 16), Fin.ofNat (w / 2 ^ 8), Fin.ofNat w]

/-- The message schedule: `k` more words, from the words so far (latest first). -/
def schedule : Nat → List Nat → List Nat
  | 0, w => w
  | k + 1, w =>
    let w2 := w.getD 1 0
    let w7 := w.getD 6 0
    let w15 := w.getD 14 0
    let w16 := w.getD 15 0
    let s0 := rotr w15 7 ^^^ rotr w15 18 ^^^ (w15 >>> 3)
    let s1 := rotr w2 17 ^^^ rotr w2 19 ^^^ (w2 >>> 10)
    schedule k (((w16 + s0 + w7 + s1) % 2 ^ 32) :: w)

/-- The eight working registers of SHA-256. -/
structure Regs where
  a : Nat
  b : Nat
  c : Nat
  d : Nat
  e : Nat
  f : Nat
  g : Nat
  h : Nat

/-- One round of the SHA-256 compression function, on a round constant and a
schedule word. -/
def round (r : Regs) (kw : Nat × Nat) : Regs :=
  let S1 := rotr r.e 6 ^^^ rotr r.e 11 ^^^ rotr r.e 25
  let ch := (r.e &&& r.f) ^^^ ((2 ^ 32 - 1 - r.e) &&& r.g)
  let t1 := (r.h + S1 + ch + kw.1 + kw.2) % 2 ^ 32
  let S0 := rotr r.a 2 ^^^ rotr r.a 13 ^^^ rotr r.a 22
  let maj := (r.a &&& r.b) ^^^ (r.a &&& r.c) ^^^ (r.b &&& r.c)
  let t2 := (S0 + maj) % 2 ^ 32
  { a := (t1 + t2) % 2 ^ 32, b := r.a, c := r.b, d := r.c,
    e := (r.d + t1) % 2 ^ 32, f := r.e, g := r.f, h := r.g }

/-- The SHA-256 compression function on one block of sixteen words. -/
def compress (h : Regs) (block : List Nat) : Regs :=
  let w := (schedule 48 block.reverse).reverse
  let r := (K256.zip w).foldl round h
  { a := (h.a + r.a) % 2 ^ 32, b := (h.b + r.b) % 2 ^ 32, c := (h.c + r.c) % 2 ^ 32,
    d := (h.d + r.d) % 2 ^ 32, e := (h.e + r.e) % 2 ^ 32, f := (h.f + r.f) % 2 ^ 32,
    g := (h.g + r.g) % 2 ^ 32, h := (h.h + r.h) % 2 ^ 32 }

/-- The compression function over `n` successive blocks. -/
def blocks : Nat → List Nat → Regs → Regs
  | 0, _, h => h
  | n + 1, ws, h => blocks n (ws.drop 16) (compress h (ws.take 16))

/-- The padding of SHA-256: a `0x80` byte, zeros, and the bit length in 64 bits. -/
def pad256 (msg : Bytes) : Bytes :=
  let len := msg.length
  let zeros := (119 - len % 64) % 64
  msg ++ [0x80] ++ List.replicate zeros 0 ++ beBytes (len * 8 / 2 ^ 32) ++ beBytes (len * 8)

/-- The function `sha256.Sum256`. -/
def Sum256 (msg : Bytes) : Bytes :=
  let p := pad256 msg
  let r := blocks (p.length / 64) (beWords p)
    ⟨0x6a09e667, 0xbb67ae85, 0x3c6ef372, 0xa54ff53a, 0x510e527f, 0x9b05688c, 0x1f83d9ab,
      0x5be0cd19⟩
  beBytes r.a ++ beBytes r.b ++ beBytes r.c ++ beBytes r.d ++ beBytes r.e ++ beBytes r.f ++
    beBytes r.g ++ beBytes r.h

/-- The constant `sha256.BlockSize`. -/
def BlockSize : Nat := 64

/-- The key `hmac.New` works with: a key longer than a block is hashed first,
and the key is then filled with zero bytes to the length of a block. -/
def hmacKey (key : Bytes) : Bytes :=
  let key := if key.length > BlockSize then Sum256 key else key
  key ++ List.replicate (BlockSize - key.length) 0

/-- The result of `h := hmac.New(sha256.New, key); h.Write(message); h.Sum(nil)`. -/
def hmacSHA256 (key message : Bytes) : Bytes :=
  let ipad := (hmacKey key).map (fun b => b ^^^ 0x36)
  let opad := (hmacKey key).map (fun b => b ^^^ 0x5c)
  Sum256 (opad ++ Sum256 (ipad ++ message))

/-! ### `time` -/

/-! A `time.Time` is the number of nanoseconds since the Unix epoch, an `Int`;
a `time.Duration` is a number of nanoseconds in `int64`. -/

/-- The constant `time.Second`, in nanoseconds. -/
def Second : Int := 1000000000

/-- The expression `time.Duration(expire) * time.Second`, an `int64` product. -/
def secondsDuration (expire : Int) : Int := wrapInt64 (expire * Second)

/-- The method `Time.Truncate(time.Second)`. -/
def truncateSecond (t : Int) : Int := t - t % Second

/-! ### `golang-jwt/jwt/v5`: claims, tokens and errors -/

/-- The function `jwt.NewNumericDate`, with the package's `TimePrecision` of one
second. -/
def NewNumericDate (t : Int) : Int := truncateSecond t

/-- The type `jwt.RegisteredClaims`; a `nil` date is `none`. -/
structure RegisteredClaims where
  Issuer : Bytes
  Subject : Bytes
  Audience : List Bytes
  ExpiresAt : Option Int
  NotBefore : Option Int
  IssuedAt : Option Int
  ID : Bytes
deriving DecidableEq

/-- The type `CustomClaims` of `jwt.go`. -/
structure CustomClaims extends RegisteredClaims where
  UserID : Nat
  Email : Bytes
deriving DecidableEq

/-- The signing methods the package registers. -/
inductive SigningMethod where
  | HS256 | HS384 | HS512
  | RS256 | RS384 | RS512
  | PS256 | PS384 | PS512
  | ES256 | ES384 | ES512
  | EdDSA
  | none
deriving DecidableEq

/-- The method `SigningMethod.Alg`. -/
def SigningMethod.Alg : SigningMethod → Bytes
  | .HS256 => str "HS256" | .HS384 => str "HS384" | .HS512 => str "HS512"
  | .RS256 => str "RS256" | .RS384 => str "RS384" | .RS512 => str "RS512"
  | .PS256 => str "PS256" | .PS384 => str "PS384" | .PS512 => str "PS512"
  | .ES256 => str "ES256" | .ES384 => str "ES384" | .ES512 => str "ES512"
  | .EdDSA => str "EdDSA"
  | .none => str "none"

/-- The registry of signing methods. -/
def signingMethods : List SigningMethod :=
  [.HS256, .HS384, .HS512, .RS256, .RS384, .RS512, .PS256, .PS384, .PS512,
    .ES256, .ES384, .ES512, .EdDSA, .none]

/-- The function `jwt.GetSigningMethod`; `none` for Go's `nil`. -/
def GetSigningMethod (alg : Bytes) : Option SigningMethod :=
  signingMethods.find? (fun m => m.Alg == alg)

/-- Modelled from the spec: the package `pkg/constants` is not among the sources;
its `SigningMethodHS256` is the "single fixed symmetric algorithm (HMAC-SHA256)"
of the specification, the package's `jwt.SigningMethodHS256`. -/
def SigningMethodHS256 : SigningMethod := .HS256

/-- The header of a token, a `map[string]interface{}`: the two entries the
package writes and reads, each present only when it is a string. -/
structure Header where
  typ : Option Bytes
  alg : Option Bytes
deriving DecidableEq

/-- The type `jwt.Token`. -/
structure Token where
  Raw : Bytes
  Method : SigningMethod
  Header : Header
  Claims : CustomClaims
  Signature : Bytes
  Valid : Bool
deriving DecidableEq

/-- What the model takes as given from the dependencies: `encoding/json` on the
header and on the claims (`json.Marshal`, `json.Unmarshal`), and `Sign` and
`Verify` of the signing methods other than HS256. -/
structure Deps where
  marshalHeader : Header → Bytes
  unmarshalHeader : Bytes → Except GoError Header
  marshalClaims : CustomClaims → Bytes
  unmarshalClaims : Bytes → Except GoError CustomClaims
  signOther : SigningMethod → Bytes → Bytes → Except GoError Bytes
  verifyOther : SigningMethod → Bytes → Bytes → Bytes → Option GoError

/-- The error `jwt.ErrTokenMalformed`. -/
def ErrTokenMalformed : GoError := GoError.new (str "token is malformed")

/-- The error `jwt.ErrTokenUnverifiable`. -/
def ErrTokenUnverifiable : GoError := GoError.new (str "token is unverifiable")

/-- The error `jwt.ErrTokenSignatureInvalid`. -/
def ErrTokenSignatureInvalid : GoError := GoError.new (str "token signature is invalid")

/-- The error `jwt.ErrTokenInvalidClaims`. -/
def ErrTokenInvalidClaims : GoError := GoError.new (str "token has invalid claims")

/-- The error `jwt.ErrTokenExpired`. -/
def ErrTokenExpired : GoError := GoError.new (str "token is expired")

/-- The error `jwt.ErrTokenNotValidYet`. -/
def ErrTokenNotValidYet : GoError := GoError.new (str "token is not valid yet")

/-- The error `jwt.ErrSignatureInvalid`. -/
def ErrSignatureInvalid : GoError := GoError.new (str "signature is invalid")

/-- The texts of a list of errors, each after a separator. -/
def appendTexts (sep : Bytes) : List GoError → Bytes
  | [] => []
  | e :: es => sep ++ e.text ++ appendTexts sep es

/-- The function `newError(message, err, more...)` of the package: `err`, then
the message when there is one, then the further errors, joined by `": "`; the
result wraps `err` and the further errors. -/
def newError (message : Bytes) (err : GoError) (more : List GoError) : GoError :=
  { text := err.text ++ (if message = [] then [] else str ": " ++ message)
      ++ appendTexts (str ": ") more,
    chain := err.chain ++ (more.map (fun e => e.chain)).flatten }

/-- The function `joinErrors` of the package on a non-empty list: the texts
joined by `", "`, every error wrapped. -/
def joinErrors : List GoError → GoError
  | [] => { text := [], chain := [] }
  | e :: es => { text := e.text ++ appendTexts (str ", ") es,
                 chain := e.chain ++ (es.map (fun x => x.chain)).flatten }

/-! ### `golang-jwt/jwt/v5`: signing -/

/-- The method `SigningMethod.Sign` with a `[]byte` key. -/
def SigningMethod.Sign (D : Deps) (m : SigningMethod) (signingString key : Bytes) :
    Except GoError Bytes :=
  match m with
  | .HS256 => .ok (hmacSHA256 key signingString)
  | m => D.signOther m signingString key

/-- The method `SigningMethod.Verify` with a `[]byte` key; `none` is Go's `nil`
error. For HS256 the signature is recomputed and compared (`hmac.Equal`). -/
def SigningMethod.Verify (D : Deps) (m : SigningMethod) (signingString sig key : Bytes) :
    Option GoError :=
  match m with
  | .HS256 => if sig = hmacSHA256 key signingString then Option.none else some ErrSignatureInvalid
  | m => D.verifyOther m signingString sig key

/-- The function `jwt.NewWithClaims`. -/
def NewWithClaims (method : SigningMethod) (claims : CustomClaims) : Token :=
  { Raw := [], Method := method,
    Header := { typ := some (str "JWT"), alg := some method.Alg },
    Claims := claims, Signature := [], Valid := false }

/-- The method `Token.EncodeSegment`. -/
def EncodeSegment (seg : Bytes) : Bytes := EncodeToString seg

/-- The method `Token.SigningString`. -/
def Token.SigningString (D : Deps) (t : Token) : Bytes :=
  EncodeSegment (D.marshalHeader t.Header) ++ str "." ++ EncodeSegment (D.marshalClaims t.Claims)

/-- The method `Token.SignedString`. -/
def Token.SignedString (D : Deps) (t : Token) (key : Bytes) : Except GoError Bytes :=
  let sstr := t.SigningString D
  match t.Method.Sign D sstr key with
  | .error err => .error err
  | .ok sig => .ok (sstr ++ str "." ++ EncodeSegment sig)

/-! ### `golang-jwt/jwt/v5`: parsing and validation -/

/-- The method `Parser.DecodeSegment` of a parser without options. -/
def DecodeSegment (seg : Bytes) : Except GoError Bytes := DecodeString seg

/-- The method `Parser.ParseUnverified`: the token read from its three
segments, with the first two segments (the text that was signed) and the
third. -/
def ParseUnverified (D : Deps) (tokenString : Bytes) : Except GoError (Token × Bytes × Bytes) :=
  match Split 46 tokenString with
  | [p0, p1, p2] =>
    match DecodeSegment p0 with
    | .error err => .error (newError (str "could not base64 decode header") ErrTokenMalformed [err])
    | .ok headerBytes =>
      match D.unmarshalHeader headerBytes with
      | .error err => .error (newError (str "could not JSON decode header") ErrTokenMalformed [err])
      | .ok header =>
        match DecodeSegment p1 with
        | .error err => .error (newError (str "could not base64 decode claim") ErrTokenMalformed [err])
        | .ok claimBytes =>
          match D.unmarshalClaims claimBytes with
          | .error err => .error (newError (str "could not JSON decode claim") ErrTokenMalformed [err])
          | .ok claims =>
            match header.alg with
            | some alg =>
              match GetSigningMethod alg with
              | some method =>
                .ok ({ Raw := tokenString, Method := method, Header := header, Claims := claims,
                       Signature := [], Valid := false }, p0 ++ str "." ++ p1, p2)
              | Option.none =>
                .error (newError (str "signing method (alg) is unavailable") ErrTokenUnverifiable [])
            | Option.none =>
              .error (newError (str "signing method (alg) is unspecified") ErrTokenUnverifiable [])
  | _ => .error (newError (str "token contains an invalid number of segments") ErrTokenMalformed [])

/-- The method `Validator.verifyExpiresAt` of the default validator (no leeway,
the claim not required). -/
def verifyExpiresAt (claims : CustomClaims) (cmp : Int) : Option GoError :=
  match claims.ExpiresAt with
  | Option.none => Option.none
  | some exp => if cmp < exp then Option.none else some ErrTokenExpired

/-- The method `Validator.verifyNotBefore` of the default validator. -/
def verifyNotBefore (claims : CustomClaims) (cmp : Int) : Option GoError :=
  match claims.NotBefore with
  | Option.none => Option.none
  | some nbf => if ¬ cmp < nbf then Option.none else some ErrTokenNotValidYet

/-- The method `Validator.Validate` of the default validator (`NewValidator()`:
no leeway, issued-at not verified, no audience, issuer or subject expected), at
the clock reading `now`. -/
def Validate (claims : CustomClaims) (now : Int) : Option GoError :=
  let errs := (verifyExpiresAt claims now).toList ++ (verifyNotBefore claims now).toList
  if errs = [] then Option.none else some (joinErrors errs)

/-- The method `Parser.ParseWithClaims` of the default parser, with a key
function that returns a `[]byte` key. `now` is the clock reading of the
validator. -/
def ParseWithClaims (D : Deps) (now : Int) (tokenString : Bytes)
    (keyFunc : Token → Except GoError Bytes) : Except GoError Token :=
  match ParseUnverified D tokenString with
  | .error err => .error err
  | .ok (token, text, p2) =>
    match DecodeSegment p2 with
    | .error err => .error (newError (str "could not base64 decode signature") ErrTokenMalformed [err])
    | .ok sig =>
      let token := { token with Signature := sig }
      match keyFunc token with
      | .error err => .error (newError (str "error while executing keyfunc") ErrTokenUnverifiable [err])
      | .ok key =>
        match token.Method.Verify D text sig key with
        | some err => .error (newError [] ErrTokenSignatureInvalid [err])
        | Option.none =>
          match Validate token.Claims now with
          | some err => .error (newError [] ErrTokenInvalidClaims [err])
          | Option.none => .ok { token with Valid := true }

/-! ### `pkg/middleware/jwt.go` -/

/-- The claims `GenerateToken` declares (lines 25-34). `t0`, `t1` and `t2` are
the three readings of `time.Now()`, in the order the function takes them: for
the expiry, for issued-at and for not-before. -/
def issuedClaims (t0 t1 t2 : Int) (userID : Nat) (email : Bytes) (expire : Int) : CustomClaims :=
  let expireTime := t0 + secondsDuration expire
  { UserID := userID, Email := email,
    ExpiresAt := some (NewNumericDate expireTime),
    IssuedAt := some (NewNumericDate t1),
    NotBefore := some (NewNumericDate t2),
    Issuer := str "sport-user",
    Subject := [], Audience := [], ID := [] }

/-- The function `GenerateToken`; `t0`, `t1` and `t2` are its three readings of
the clock. -/
def GenerateToken (D : Deps) (t0 t1 t2 : Int) (userID : Nat) (email : Bytes) (expire : Int)
    (secret : Bytes) : Except GoError Bytes :=
  let claims := issuedClaims t0 t1 t2 userID email expire
  let token := NewWithClaims SigningMethodHS256 claims
  match token.SignedString D secret with
  | .error err => .error err
  | .ok signedToken => .ok signedToken

/-- The key function `ParseToken` hands to the parser (lines 51-57). -/
def keyFunc (secret : Bytes) (token : Token) : Except GoError Bytes :=
  if token.Method ≠ SigningMethodHS256 then
    .error (GoError.new (str "Unsupported signature algorithm: " ++ token.Header.alg.getD []))
  else .ok secret

/-- The function `ParseToken`; `now` is the clock reading of the validator. -/
def ParseToken (D : Deps) (now : Int) (tokenString secret : Bytes) :
    Except GoError CustomClaims :=
  match ParseWithClaims D now tokenString (keyFunc secret) with
  | .error err => .error err
  | .ok token =>
    if token.Valid then .ok token.Claims
    else .error (GoError.new (str "invalid token"))

/-! ### Notions used in the statements about tokens -/

/-- The header of a token that `NewWithClaims` makes for HS256. -/
def hs256Header : Header := (NewWithClaims SigningMethodHS256
  { UserID := 0, Email := [], Issuer := [], Subject := [], Audience := [],
    ExpiresAt := Option.none, NotBefore := Option.none, IssuedAt := Option.none, ID := [] }).Header

/-- The JSON layer `D` reads a token of `claims` back as `claims'`: the header
it writes for HS256 decodes to a header with the same algorithm tag, and the
text it writes for `claims` decodes to `claims'`. -/
def Deps.readsBack (D : Deps) (claims claims' : CustomClaims) : Prop :=
  (∃ header, D.unmarshalHeader (D.marshalHeader hs256Header) = .ok header
      ∧ header.alg = some (str "HS256"))
    ∧ D.unmarshalClaims (D.marshalClaims claims) = .ok claims'

/-- The text that is signed for `claims` under HS256. -/
def signingStringOf (D : Deps) (claims : CustomClaims) : Bytes :=
  (NewWithClaims SigningMethodHS256 claims).SigningString D

/-- The token string of `claims` signed with `key` under HS256. -/
def signedStringOf (D : Deps) (claims : CustomClaims) (key : Bytes) : Bytes :=
  signingStringOf D claims ++ str "." ++ EncodeSegment (hmacSHA256 key (signingStringOf D claims))

/-- The algorithm tag in the header of a token string, as the parser reads it:
`none` when the string has no three segments, when the header does not decode,
or when it has no `alg` entry that is a string. -/
def headerAlg (D : Deps) (tokenString : Bytes) : Option Bytes :=
  match Split 46 tokenString with
  | [p0, _, _] =>
    match DecodeSegment p0 with
    | .error _ => Option.none
    | .ok headerBytes =>
      match D.unmarshalHeader headerBytes with
      | .error _ => Option.none
      | .ok header => header.alg
  | _ => Option.none

/-! ### A reference `encoding/json` for the header and the claims

`jsonDeps` instantiates `Deps`. Its `Marshal` writes what `encoding/json` writes
for a header and for a `CustomClaims`; its `Unmarshal` reads that layout back (an
object without white space whose members are the fields of the type). -/

deriving instance DecidableEq for Except

/-- The digits of `encoding/json`'s `hex`. -/
def hexDigit (v : Nat) : Byte := (str "0123456789abcdef").getD v 0

/-- The table `htmlSafeSet` of `encoding/json`: the ASCII bytes written as they
are, which are the printable ones but `"`, `&`, `<`, `>` and `\`. -/
def htmlSafe (b : Byte) : Bool :=
  decide (0x20 ≤ b.val ∧ b.val < 0x80 ∧ b.val ≠ 34 ∧ b.val ≠ 38 ∧ b.val ≠ 60 ∧ b.val ≠ 62
    ∧ b.val ≠ 92)

/-- What `appendString` writes for one ASCII byte. -/
def escapeASCII (b : Byte) : Bytes :=
  if htmlSafe b then [b]
  else if b.val = 92 ∨ b.val = 34 then [92, b]
  else if b.val = 8 then str "\\b"
  else if b.val = 12 then str "\\f"
  else if b.val = 10 then str "\\n"
  else if b.val = 13 then str "\\r"
  else if b.val = 9 then str "\\t"
  else str "\\u00" ++ [hexDigit (b.val / 16), hexDigit (b.val % 16)]

/-- A continuation byte of UTF-8. -/
def isCont (b : Byte) : Bool := decide (0x80 ≤ b.val ∧ b.val ≤ 0xBF)

/-- The first two bytes of a well-formed three-byte sequence of UTF-8 (no
overlong form, no surrogate). -/
def lead3 (b0 b1 : Byte) : Bool :=
  decide ((b0.val = 0xE0 ∧ 0xA0 ≤ b1.val ∧ b1.val ≤ 0xBF)
    ∨ (0xE1 ≤ b0.val ∧ b0.val ≤ 0xEF ∧ b0.val ≠ 0xED ∧ 0x80 ≤ b1.val ∧ b1.val ≤ 0xBF)
    ∨ (b0.val = 0xED ∧ 0x80 ≤ b1.val ∧ b1.val ≤ 0x9F))

/-- The first two bytes of a well-formed four-byte sequence of UTF-8 (no
overlong form, at most U+10FFFF). -/
def lead4 (b0 b1 : Byte) : Bool :=
  decide ((b0.val = 0xF0 ∧ 0x90 ≤ b1.val ∧ b1.val ≤ 0xBF)
    ∨ (0xF1 ≤ b0.val ∧ b0.val ≤ 0xF3 ∧ 0x80 ≤ b1.val ∧ b1.val ≤ 0xBF)
    ∨ (b0.val = 0xF4 ∧ 0x80 ≤ b1.val ∧ b1.val ≤ 0x8F))

/-- The escape of U+FFFD, which `appendString` writes for a byte that is not
part of a well-formed UTF-8 sequence. -/
def replacementEscape : Bytes := str "\\ufffd"

/-- The size `utf8.DecodeRuneInString` reports for the sequence at the head of
a text that starts with a byte of `0x80` or more: 2, 3 or 4 for a well-formed
sequence, and 0 here for Go's `(RuneError, 1)`. -/
def runeSize : Bytes → Nat
  | b0 :: b1 :: rest =>
    if 0xC2 ≤ b0.val ∧ b0.val ≤ 0xDF ∧ isCont b1 = true then 2
    else
      match rest with
      | b2 :: rest2 =>
        if lead3 b0 b1 = true ∧ isCont b2 = true then 3
        else
          match rest2 with
          | b3 :: _ => if lead4 b0 b1 = true ∧ isCont b2 = true ∧ isCont b3 = true then 4 else 0
          | [] => 0
      | [] => 0
  | _ => 0

/-- The loop of `appendString` of `encoding/json` (with HTML escaping), one
sequence for each unit of fuel: the text between the quotes. ASCII bytes are
escaped by `escapeASCII`; a well-formed UTF-8 sequence is copied, except U+2028
and U+2029; any other byte is replaced by the escape of U+FFFD. -/
def escapeLoop : Nat → Bytes → Bytes
  | 0, _ => []
  | _ + 1, [] => []
  | fuel + 1, b0 :: rest =>
    if b0.val < 0x80 then escapeASCII b0 ++ escapeLoop fuel rest
    else if runeSize (b0 :: rest) = 0 then replacementEscape ++ escapeLoop fuel rest
    else if (b0 :: rest).take 3 = [0xE2, 0x80, 0xA8] then
      str "\\u2028" ++ escapeLoop fuel (rest.drop 2)
    else if (b0 :: rest).take 3 = [0xE2, 0x80, 0xA9] then
      str "\\u2029" ++ escapeLoop fuel (rest.drop 2)
    else
      (b0 :: rest).take (runeSize (b0 :: rest))
        ++ escapeLoop fuel (rest.drop (runeSize (b0 :: rest) - 1))

/-- The text `appendString` writes between the quotes. -/
def escapeString (src : Bytes) : Bytes := escapeLoop src.length src

/-- The loop of `utf8.ValidString`, one sequence for each unit of fuel. -/
def validLoop : Nat → Bytes → Bool
  | 0, s => s.isEmpty
  | _ + 1, [] => true
  | fuel + 1, b0 :: rest =>
    if b0.val < 0x80 then validLoop fuel rest
    else if runeSize (b0 :: rest) = 0 then false
    else validLoop fuel (rest.drop (runeSize (b0 :: rest) - 1))

/-- The function `utf8.ValidString`: the text is a sequence of well-formed
UTF-8 sequences. -/
def ValidString (s : Bytes) : Bool := validLoop s.length s

/-- A string as `json.Marshal` writes it. -/
def marshalString (s : Bytes) : Bytes := [34] ++ escapeString s ++ [34]

/-- An integer as `strconv.FormatInt(i, 10)` writes it. -/
def FormatInt (i : Int) : Bytes :=
  if i < 0 then str "-" ++ Itoa (-i).toNat else Itoa i.toNat

/-- The method `NumericDate.MarshalJSON` with a `TimePrecision` of one second:
the Unix seconds of the date. -/
def marshalNumericDate (t : Int) : Bytes := FormatInt (t / Second)

/-- The members of a JSON array of strings, each after a comma. -/
def marshalMore : List Bytes → Bytes
  | [] => []
  | s :: ss => str "," ++ marshalString s ++ marshalMore ss

/-- The method `ClaimStrings.MarshalJSON` (always an array). -/
def marshalStrings : List Bytes → Bytes
  | [] => str "[]"
  | s :: ss => str "[" ++ marshalString s ++ marshalMore ss ++ str "]"

/-- A string member with `omitempty`, after a comma. -/
def stringMember (name value : Bytes) : Bytes :=
  if value = [] then [] else str "," ++ marshalString name ++ str ":" ++ marshalString value

/-- A date member with `omitempty`, after a comma. -/
def dateMember (name : Bytes) : Option Int → Bytes
  | Option.none => []
  | some t => str "," ++ marshalString name ++ str ":" ++ marshalNumericDate t

/-- What `json.Marshal` writes for a `CustomClaims`: the members in the order of
the fields, those of the embedded `RegisteredClaims` left out when empty. -/
def marshalClaims (c : CustomClaims) : Bytes :=
  str "\x7b\"user_id\":" ++ Itoa c.UserID ++ str ",\"email\":" ++ marshalString c.Email
    ++ stringMember (str "iss") c.Issuer
    ++ stringMember (str "sub") c.Subject
    ++ (if c.Audience = [] then [] else str ",\"aud\":" ++ marshalStrings c.Audience)
    ++ dateMember (str "exp") c.ExpiresAt
    ++ dateMember (str "nbf") c.NotBefore
    ++ dateMember (str "iat") c.IssuedAt
    ++ stringMember (str "jti") c.ID
    ++ str "\x7d"

/-- What `json.Marshal` writes for a header: the entries in the order of their
keys. -/
def marshalHeader (h : Header) : Bytes :=
  match h.alg, h.typ with
  | some a, some t =>
    str "\x7b\"alg\":" ++ marshalString a ++ str ",\"typ\":" ++ marshalString t ++ str "\x7d"
  | some a, Option.none => str "\x7b\"alg\":" ++ marshalString a ++ str "\x7d"
  | Option.none, some t => str "\x7b\"typ\":" ++ marshalString t ++ str "\x7d"
  | Option.none, Option.none => str "\x7b\x7d"

/-- The value of a hexadecimal digit. -/
def hexVal (c : Byte) : Option Nat :=
  if 48 ≤ c.val ∧ c.val ≤ 57 then some (c.val - 48)
  else if 97 ≤ c.val ∧ c.val ≤ 102 then some (c.val - 87)
  else if 65 ≤ c.val ∧ c.val ≤ 70 then some (c.val - 55)
  else Option.none

/-- The UTF-8 encoding of a code point below U+10000, a surrogate being replaced
by U+FFFD. -/
def encodeRune (r : Nat) : Bytes :=
  if r < 0x80 then [Fin.ofNat r]
  else if r < 0x800 then [Fin.ofNat (0xC0 + r / 64), Fin.ofNat (0x80 + r % 64)]
  else if 0xD800 ≤ r ∧ r ≤ 0xDFFF then [0xEF, 0xBF, 0xBD]
  else [Fin.ofNat (0xE0 + r / 4096), Fin.ofNat (0x80 + r / 64 % 64), Fin.ofNat (0x80 + r % 64)]

/-- The character a one-letter escape of JSON stands for. -/
def unescape (e : Byte) : Option Byte :=
  if e.val = 34 ∨ e.val = 92 ∨ e.val = 47 then some e
  else if e.val = 98 then some 8
  else if e.val = 102 then some 12
  else if e.val = 110 then some 10
  else if e.val = 114 then some 13
  else if e.val = 116 then some 9
  else Option.none

/-- A JSON string read after its opening quote: the string and the text after
its closing quote. -/
def readString : Bytes → Option (Bytes × Bytes)
  | [] => Option.none
  | c :: s =>
    if c.val = 34 then some ([], s)
    else if c.val = 92 then
      match s with
      | [] => Option.none
      | e :: s1 =>
        if e.val = 117 then
          match s1 with
          | h0 :: h1 :: h2 :: h3 :: s2 =>
            match hexVal h0, hexVal h1, hexVal h2, hexVal h3, readString s2 with
            | some v0, some v1, some v2, some v3, some (d, rest) =>
              some (encodeRune (v0 * 4096 + v1 * 256 + v2 * 16 + v3) ++ d, rest)
            | _, _, _, _, _ => Option.none
          | _ => Option.none
        else
          match unescape e, readString s1 with
          | some b, some (d, rest) => some (b :: d, rest)
          | _, _ => Option.none
    else if c.val < 0x20 then Option.none
    else
      match readString s with
      | some (d, rest) => some (c :: d, rest)
      | Option.none => Option.none

/-- A JSON string with its opening quote. -/
def readQuoted : Bytes → Option (Bytes × Bytes)
  | c :: s => if c.val = 34 then readString s else Option.none
  | [] => Option.none

/-- The decimal digits at the head of a text, as a number, and the text after
them. -/
def readDigits (acc : Nat) : Bytes → Nat × Bytes
  | [] => (acc, [])
  | c :: s =>
    if 48 ≤ c.val ∧ c.val ≤ 57 then readDigits (acc * 10 + (c.val - 48)) s else (acc, c :: s)

/-- A non-negative JSON integer and the text after it. -/
def readNat : Bytes → Option (Nat × Bytes)
  | [] => Option.none
  | c :: s => if 48 ≤ c.val ∧ c.val ≤ 57 then some (readDigits 0 (c :: s)) else Option.none

/-- A JSON integer and the text after it. -/
def readInt : Bytes → Option (Int × Bytes)
  | [] => Option.none
  | c :: s =>
    if c.val = 45 then (readNat s).map (fun r => (-(r.1 : Int), r.2))
    else (readNat (c :: s)).map (fun r => ((r.1 : Int), r.2))

/-- The `float64` nearest to a natural number below `2 ^ 1024`, ties going to
the even significand: what `strconv.ParseFloat` gives for its decimal digits. A
number below `2 ^ 53` is a `float64`. -/
def float64OfNat (n : Nat) : Nat :=
  if n < 2 ^ 53 then n
  else
    let unit := 2 ^ (Nat.log2 n - 52)
    let q := n / unit
    let r := n % unit
    if 2 * r < unit ∨ (2 * r = unit ∧ q % 2 = 0) then q * unit else (q + 1) * unit

/-- The method `NumericDate.UnmarshalJSON` on whole seconds: the number goes
through `float64`, and its integer part through `int64` to `time.Unix`. Go
leaves the conversion of a `float64` outside the range of `int64` to the
platform; such a date is not read here. -/
def readNumericDate (s : Bytes) : Option (Int × Bytes) :=
  (readInt s).bind (fun r =>
    let seconds : Int := if r.1 < 0 then -(float64OfNat (-r.1).toNat : Int)
      else (float64OfNat r.1.toNat : Int)
    if -2 ^ 63 ≤ seconds ∧ seconds < 2 ^ 63 then some (NewNumericDate (seconds * Second), r.2)
    else Option.none)

/-- The further members of a JSON array of strings, up to its closing bracket. -/
def readMore : Nat → Bytes → Option (List Bytes × Bytes)
  | 0, _ => Option.none
  | fuel + 1, s =>
    match s with
    | c :: s1 =>
      if c.val = 93 then some ([], s1)
      else if c.val = 44 then
        match readQuoted s1 with
        | some (x, s2) => (readMore fuel s2).map (fun r => (x :: r.1, r.2))
        | Option.none => Option.none
      else Option.none
    | [] => Option.none

/-- A JSON array of strings. -/
def readStrings : Bytes → Option (List Bytes × Bytes)
  | c :: s =>
    if c.val = 91 then
      match s with
      | d :: s1 =>
        if d.val = 93 then some ([], s1)
        else
          match readQuoted s with
          | some (x, s2) => (readMore s2.length.succ s2).map (fun r => (x :: r.1, r.2))
          | Option.none => Option.none
      | [] => Option.none
    else Option.none
  | [] => Option.none

/-- The value of the member `key` of a claims object read into `c`; the user id
is a `uint64`. -/
def readClaim (key s : Bytes) (c : CustomClaims) : Option (CustomClaims × Bytes) :=
  if key = str "user_id" then
    (readNat s).bind (fun r => if r.1 < 2 ^ 64 then some ({ c with UserID := r.1 }, r.2)
      else Option.none)
  else if key = str "email" then (readQuoted s).map (fun r => ({ c with Email := r.1 }, r.2))
  else if key = str "iss" then (readQuoted s).map (fun r => ({ c with Issuer := r.1 }, r.2))
  else if key = str "sub" then (readQuoted s).map (fun r => ({ c with Subject := r.1 }, r.2))
  else if key = str "aud" then (readStrings s).map (fun r => ({ c with Audience := r.1 }, r.2))
  else if key = str "exp" then
    (readNumericDate s).map (fun r => ({ c with ExpiresAt := some r.1 }, r.2))
  else if key = str "nbf" then
    (readNumericDate s).map (fun r => ({ c with NotBefore := some r.1 }, r.2))
  else if key = str "iat" then
    (readNumericDate s).map (fun r => ({ c with IssuedAt := some r.1 }, r.2))
  else if key = str "jti" then (readQuoted s).map (fun r => ({ c with ID := r.1 }, r.2))
  else Option.none

/-- The value of the member `key` of a header object read into `h`. -/
def readEntry (key s : Bytes) (h : Header) : Option (Header × Bytes) :=
  if key = str "alg" then (readQuoted s).map (fun r => ({ h with alg := some r.1 }, r.2))
  else if key = str "typ" then (readQuoted s).map (fun r => ({ h with typ := some r.1 }, r.2))
  else Option.none

/-- The members of a JSON object, after its opening brace and up to its closing
brace, which ends the text; `member` reads the value of one member. -/
def readMembers {α : Type} (member : Bytes → Bytes → α → Option (α × Bytes)) :
    Nat → Bytes → α → Option α
  | 0, _, _ => Option.none
  | fuel + 1, s, a =>
    match readQuoted s with
    | some (key, c :: s1) =>
      if c.val = 58 then
        match member key s1 a with
        | some (a', d :: s2) =>
          if s2 = [] then (if d.val = 125 then some a' else Option.none)
          else if d.val = 44 then readMembers member fuel s2 a'
          else Option.none
        | _ => Option.none
      else Option.none
    | _ => Option.none

/-- A JSON object read into `a`. -/
def readObject {α : Type} (member : Bytes → Bytes → α → Option (α × Bytes)) (s : Bytes) (a : α) :
    Option α :=
  match s with
  | c :: s1 =>
    if c.val = 123 then
      (if s1 = [125] then some a else readMembers member s1.length s1 a)
    else Option.none
  | [] => Option.none

/-- The error of the reference `Unmarshal` for a text it does not read. -/
def jsonError : GoError := GoError.new (str "invalid character in JSON text")

/-- The reference `json.Unmarshal` into a `CustomClaims`. -/
def unmarshalClaims (data : Bytes) : Except GoError CustomClaims :=
  match readObject readClaim data
      { UserID := 0, Email := [], Issuer := [], Subject := [], Audience := [],
        ExpiresAt := Option.none, NotBefore := Option.none, IssuedAt := Option.none, ID := [] } with
  | some c => .ok c
  | Option.none => .error jsonError

/-- The reference `json.Unmarshal` into a header. -/
def unmarshalHeader (data : Bytes) : Except GoError Header :=
  match readObject readEntry data { typ := Option.none, alg := Option.none } with
  | some h => .ok h
  | Option.none => .error jsonError

/-- The error `jwt.ErrInvalidKeyType`. -/
def ErrInvalidKeyType : GoError := GoError.new (str "key is of invalid type")

/-- The reference dependencies. No function of `jwt.go` reaches `Sign` or
`Verify` of a method other than HS256; here they refuse the `[]byte` key. -/
def jsonDeps : Deps :=
  { marshalHeader := marshalHeader, unmarshalHeader := unmarshalHeader,
    marshalClaims := marshalClaims, unmarshalClaims := unmarshalClaims,
    signOther := fun _ _ _ => .error ErrInvalidKeyType,
    verifyOther := fun _ _ _ _ => some ErrInvalidKeyType }

/-! ### `pkg/middleware/auth_middleware.go` -/

/-- The constant `BearerPrefix`. -/
def BearerPrefix : Bytes := str "Bearer "

/-- The constant `ContextUserIDKey`. -/
def ContextUserIDKey : Bytes := str "user_id"

/-- The type `AuthMiddleware`. -/
structure AuthMiddleware where
  secret : Bytes
deriving DecidableEq

/-- The function `NewAuthMiddleware`. -/
def NewAuthMiddleware (secret : Bytes) : AuthMiddleware := { secret := secret }

/-- Lines 95-99 of `validateTokenAndGetUserID`: the token string that is handed
to `ParseToken` for an `Authorization` value. -/
def tokenStringOf (authHeader : Bytes) : Bytes :=
  let tokenString := TrimPrefix authHeader BearerPrefix
  if tokenString = authHeader then authHeader else tokenString

/-- The method `validateTokenAndGetUserID`; `now` is the clock reading of
`ParseToken`. -/
def AuthMiddleware.validateTokenAndGetUserID (m : AuthMiddleware) (D : Deps) (now : Int)
    (authHeader : Bytes) : Except GoError Nat :=
  match ParseToken D now (tokenStringOf authHeader) m.secret with
  | .error err => .error err
  | .ok claims => .ok claims.UserID

/-- What a handler wrote to an `http.ResponseWriter`. -/
structure HttpResponse where
  contentType : Bytes
  status : Nat
  body : Bytes
deriving DecidableEq

/-- The constant `http.StatusOK`. -/
def StatusOK : Nat := 200

/-- The constant `http.StatusUnauthorized`. -/
def StatusUnauthorized : Nat := 401

/-- The function `writeErrorResponse`. -/
def writeErrorResponse (code : Nat) (message : Bytes) : HttpResponse :=
  { contentType := str "application/json",
    status := StatusOK,
    body := str "\x7b\"code\": " ++ Itoa code ++ str ", \"message\": \"" ++ message ++ str "\"\x7d" }

/-- What the handler `Handle` returns did with a request: it wrote a response
without calling `next`, or it called `next` with a context that holds
`userID` under `ContextUserIDKey`. -/
inductive Handled where
  | rejected (response : HttpResponse)
  | next (userID : Nat)
deriving DecidableEq

/-- The method `AuthMiddleware.Handle`, on the `Authorization` header of the
request (empty when the request has none). -/
def AuthMiddleware.Handle (m : AuthMiddleware) (D : Deps) (now : Int) (authHeader : Bytes) :
    Handled :=
  if authHeader = [] then
    .rejected (writeErrorResponse StatusUnauthorized (str "unauthorized"))
  else
    match m.validateTokenAndGetUserID D now authHeader with
    | .error err => .rejected (writeErrorResponse StatusUnauthorized err.text)
    | .ok userID => .next userID

/-- The type `transport.Kind` of go-kratos. -/
inductive Kind where
  | HTTP
  | GRPC
  | other (name : Bytes)
deriving DecidableEq

/-- A `transport.Transporter` of go-kratos: its kind, its operation and the
method `Get` of its request header. -/
structure Transporter where
  kind : Kind
  operation : Bytes
  requestHeader : Bytes → Bytes

/-- The error `errors.New(code, reason, message)` of go-kratos. -/
structure KratosError where
  Code : Nat
  Reason : Bytes
  Message : Bytes
deriving DecidableEq

/-- What a go-kratos middleware did with a request: it returned an error without
calling the handler, or it called the handler, with a context that holds
`userID` under `ContextUserIDKey` or with the context it was given (`none`). -/
inductive Outcome where
  | rejected (err : KratosError)
  | handler (userID : Option Nat)
deriving DecidableEq

/-- The message `未授权` of line 61, in UTF-8. -/
def unauthorizedMessage : Bytes := [230, 156, 170, 230, 142, 136, 230, 157, 131]

/-- The method `AuthMiddleware.Middleware`; `tr` is the result of
`transport.FromServerContext(ctx)`, `none` when the context holds no transport. -/
def AuthMiddleware.Middleware (m : AuthMiddleware) (D : Deps) (now : Int)
    (tr : Option Transporter) : Outcome :=
  match tr with
  | Option.none => .rejected ⟨401, str "unauthorized", unauthorizedMessage⟩
  | some tr =>
    let token : Option Bytes :=
      match tr.kind with
      | .HTTP => some (tr.requestHeader (str "Authorization"))
      | .GRPC => some (tr.requestHeader (str "authorization"))
      | .other _ => Option.none
    match token with
    | Option.none => .rejected ⟨401, str "unauthorized", str "unsupported transfer protocol"⟩
    | some token =>
      if token = [] then .rejected ⟨401, str "unauthorized", str "token is empty"⟩
      else
        match m.validateTokenAndGetUserID D now token with
        | .error err => .rejected ⟨401, str "unauthorized", err.text⟩
        | .ok userID => .handler (some userID)

/-- The type `AuthMiddlewareWithWhitelist`; the map `whitelist` is the function
that looks a path up in it. -/
structure AuthMiddlewareWithWhitelist extends AuthMiddleware where
  whitelist : Bytes → Bool

/-- The function `NewAuthMiddlewareWithWhitelist`. -/
def NewAuthMiddlewareWithWhitelist (secret : Bytes) (whitelist : List Bytes) :
    AuthMiddlewareWithWhitelist :=
  { toAuthMiddleware := NewAuthMiddleware secret,
    whitelist := fun path => decide (path ∈ whitelist) }

/-- The method `AuthMiddlewareWithWhitelist.Middleware`. -/
def AuthMiddlewareWithWhitelist.Middleware (m : AuthMiddlewareWithWhitelist) (D : Deps)
    (now : Int) (tr : Option Transporter) : Outcome :=
  match tr with
  | Option.none => .handler Option.none
  | some t =>
    if t.kind = Kind.HTTP ∧ m.whitelist t.operation = true then .handler Option.none
    else m.toAuthMiddleware.Middleware D now (some t)

/-! ## Part II. Theorems -/

/-! ### Prefixes -/

theorem hasPrefix_append (p s : Bytes) : HasPrefix (p ++ s) p = true := by
  induction p with
  | nil => cases s <;> rfl
  | cons c p ih => simp [HasPrefix, ih]

theorem hasPrefix_iff (s p : Bytes) : HasPrefix s p = true ↔ ∃ r, s = p ++ r := by
  induction p generalizing s with
  | nil => cases s <;> simp [HasPrefix]
  | cons d p ih =>
    cases s with
    | nil => simp [HasPrefix]
    | cons c s =>
      simp only [HasPrefix, Bool.and_eq_true, beq_iff_eq, ih, List.cons_append, List.cons.injEq]
      constructor
      · rintro ⟨rfl, r, rfl⟩
        exact ⟨r, rfl, rfl⟩
      · rintro ⟨r, rfl, rfl⟩
        exact ⟨rfl, r, rfl⟩

theorem trimPrefix_append (p s : Bytes) : TrimPrefix (p ++ s) p = s := by
  simp [TrimPrefix, hasPrefix_append]

theorem trimPrefix_of_not (s p : Bytes) (h : HasPrefix s p = false) : TrimPrefix s p = s := by
  simp [TrimPrefix, h]

theorem tokenStringOf_eq (a : Bytes) : tokenStringOf a = TrimPrefix a BearerPrefix := by
  unfold tokenStringOf
  simp only
  split
  · next h => exact h.symm
  · rfl

theorem tokenStringOf_bearer (t : Bytes) : tokenStringOf (BearerPrefix ++ t) = t := by
  rw [tokenStringOf_eq, trimPrefix_append]

theorem tokenStringOf_of_not (a : Bytes) (h : HasPrefix a BearerPrefix = false) :
    tokenStringOf a = a := by
  rw [tokenStringOf_eq, trimPrefix_of_not _ _ h]

theorem hasPrefix_append_self (s p : Bytes) (h : HasPrefix s (p ++ p) = false) (r : Bytes)
    (hs : s = p ++ r) : HasPrefix r p = false := by
  cases hr : HasPrefix r p with
  | false => rfl
  | true =>
    obtain ⟨q, rfl⟩ := (hasPrefix_iff r p).1 hr
    have : HasPrefix s (p ++ p) = true := (hasPrefix_iff _ _).2 ⟨q, by simp [hs]⟩
    simp [this] at h

/-- C8 (as amended): the normalization of a credential is idempotent on every
credential that does not start with two `Bearer ` prefixes, and it leaves a
credential without the prefix as it is. -/
theorem tokenStringOf_idempotent (s : Bytes)
    (h : HasPrefix s (BearerPrefix ++ BearerPrefix) = false) :
    tokenStringOf (tokenStringOf s) = tokenStringOf s
      ∧ (HasPrefix s BearerPrefix = false → tokenStringOf s = s) := by
  refine ⟨?_, tokenStringOf_of_not s⟩
  cases hs : HasPrefix s BearerPrefix with
  | false => rw [tokenStringOf_of_not s hs, tokenStringOf_of_not s hs]
  | true =>
    obtain ⟨r, rfl⟩ := (hasPrefix_iff s BearerPrefix).1 hs
    rw [tokenStringOf_bearer]
    exact tokenStringOf_of_not r (hasPrefix_append_self _ _ h r rfl)

theorem tokenStringOf_idempotent_witness :
    HasPrefix (str "Bearer abc") (BearerPrefix ++ BearerPrefix) = false
      ∧ tokenStringOf (tokenStringOf (str "Bearer abc")) = tokenStringOf (str "Bearer abc")
      ∧ tokenStringOf (str "Bearer abc") = str "abc" :=
  ⟨by decide, (tokenStringOf_idempotent (str "Bearer abc") (by decide)).1, by decide⟩

/-- C8 (as stated) fails: normalizing `Bearer Bearer x` gives `Bearer x`, and
normalizing that gives `x`. -/
theorem tokenStringOf_not_idempotent :
    tokenStringOf (str "Bearer Bearer x") = str "Bearer x"
      ∧ tokenStringOf (tokenStringOf (str "Bearer Bearer x")) = str "x"
      ∧ tokenStringOf (tokenStringOf (str "Bearer Bearer x"))
          ≠ tokenStringOf (str "Bearer Bearer x") := by
  decide

/-! ### The node identifier -/

theorem scanAddrs_eq_spec (addrs : List Addr) : scanAddrs addrs = nodeIDSpec addrs := by
  induction addrs with
  | nil => rfl
  | cons a addrs ih =>
    cases a with
    | other n t =>
      simp only [scanAddrs, nodeIDSpec, List.find?, isNonLoopbackIPv4]
      exact ih
    | IPNet ip mask =>
      unfold scanAddrs nodeIDSpec
      simp only [List.find?, isNonLoopbackIPv4]
      cases hl : ip.IsLoopback <;> cases h4 : ip.To4 <;>
        simp [ipv4Bytes, h4, ih, nodeIDSpec]

theorem scanAddrs_range (addrs : List Addr) : 0 ≤ scanAddrs addrs ∧ scanAddrs addrs ≤ 1023 := by
  induction addrs with
  | nil => simp [scanAddrs]
  | cons a addrs ih =>
    cases a with
    | other n t => simpa [scanAddrs] using ih
    | IPNet ip mask =>
      unfold scanAddrs
      split
      · split
        · constructor <;> omega
        · exact ih
      · exact ih

/-- C10: `getNodeIDFromIP` returns the FNV-1a hash, modulo 1024, of the four
bytes of the first non-loopback IPv4 address of the list, and 1 when there is
none or when the lookup failed; the result lies in [0, 1023]. -/
theorem getNodeIDFromIP_spec (addrs : List Addr) (err : GoError) :
    getNodeIDFromIP (.ok addrs) = nodeIDSpec addrs
      ∧ (addrs.find? isNonLoopbackIPv4 = none → getNodeIDFromIP (.ok addrs) = 1)
      ∧ getNodeIDFromIP (.error err) = 1
      ∧ 0 ≤ getNodeIDFromIP (.ok addrs) ∧ getNodeIDFromIP (.ok addrs) ≤ 1023 := by
  refine ⟨scanAddrs_eq_spec addrs, ?_, rfl, scanAddrs_range addrs⟩
  intro h
  show scanAddrs addrs = 1
  rw [scanAddrs_eq_spec, nodeIDSpec, h]

/-! ### The generator -/

theorem wrapInt64_of_range (x : Int) (h0 : -(2 ^ 63) ≤ x) (h1 : x < 2 ^ 63) : wrapInt64 x = x := by
  unfold wrapInt64
  omega

theorem int_lor_natCast (a b : Nat) : Int.lor (a : Int) (b : Int) = ((a ||| b : Nat) : Int) := rfl

theorem int_land_natCast (a b : Nat) : Int.land (a : Int) (b : Int) = ((a &&& b : Nat) : Int) := rfl

theorem nat_pack (a b c : Nat) (hb : b < 2 ^ 10) (hc : c < 2 ^ 12) :
    (a * 2 ^ 22 ||| b * 2 ^ 12) ||| c = a * 2 ^ 22 + b * 2 ^ 12 + c := by
  have h1 : a * 2 ^ 22 ||| b * 2 ^ 12 = a * 2 ^ 22 + b * 2 ^ 12 := by
    have hlt : b * 2 ^ 12 < 2 ^ 22 := by omega
    have := Nat.mul_add_lt_is_or hlt a
    rw [Nat.mul_comm] at this
    exact this.symm
  rw [h1]
  have h2 : a * 2 ^ 22 + b * 2 ^ 12 = 2 ^ 12 * (a * 2 ^ 10 + b) := by ring
  rw [h2]
  exact (Nat.mul_add_lt_is_or hc _).symm

/-- The identifier as a sum: the three fields do not overlap. -/
theorem pack_eq (n : Node) (now step : Int) (hts : n.timeShift = 22) (hns : n.nodeShift = 12)
    (hnow0 : 0 ≤ now) (hnow : now < 2 ^ 41) (hn0 : 0 ≤ n.node) (hn : n.node ≤ 1023)
    (hs0 : 0 ≤ step) (hs : step ≤ 4095) :
    n.pack now step = now * 2 ^ 22 + n.node * 2 ^ 12 + step := by
  unfold Node.pack shl64
  rw [hts, hns, wrapInt64_of_range _ (by omega) (by omega),
    wrapInt64_of_range _ (by omega) (by omega)]
  obtain ⟨a, rfl⟩ := Int.eq_ofNat_of_zero_le hnow0
  obtain ⟨b, hb⟩ := Int.eq_ofNat_of_zero_le hn0
  obtain ⟨c, rfl⟩ := Int.eq_ofNat_of_zero_le hs0
  rw [hb]
  have e1 : ((a : Int) * 2 ^ 22) = ((a * 2 ^ 22 : Nat) : Int) := by push_cast; ring
  have e2 : ((b : Int) * 2 ^ 12) = ((b * 2 ^ 12 : Nat) : Int) := by push_cast; ring
  rw [e1, e2, int_lor_natCast, int_lor_natCast, nat_pack a b c (by omega) (by omega)]
  push_cast
  ring

theorem next_step (step : Int) (hs0 : 0 ≤ step) (hs : step ≤ 4095) :
    Int.land (wrapInt64 (step + 1)) 4095 = (step + 1) % 4096 := by
  rw [wrapInt64_of_range _ (by omega) (by omega)]
  obtain ⟨c, rfl⟩ := Int.eq_ofNat_of_zero_le hs0
  have e : ((c : Int) + 1) = ((c + 1 : Nat) : Int) := by push_cast; ring
  have e4 : (4095 : Int) = ((4095 : Nat) : Int) := rfl
  rw [e, e4, int_land_natCast]
  have := Nat.and_pow_two_sub_one_eq_mod (c + 1) 12
  norm_num at this
  rw [this]
  push_cast
  rfl

theorem waitNext_spec (last : Int) (clock : List Int) (now : Int) (now' : Int) (clock' : List Int)
    (h : waitNext last now clock = some (now', clock')) :
    last < now' ∧ ∃ skipped, now :: clock = skipped ++ now' :: clock' := by
  induction clock generalizing now with
  | nil =>
    unfold waitNext at h
    split at h
    · simp at h
    · simp only [Option.some.injEq, Prod.mk.injEq] at h
      obtain ⟨rfl, rfl⟩ := h
      exact ⟨by omega, [], rfl⟩
  | cons r rest ih =>
    unfold waitNext at h
    split at h
    · obtain ⟨hlt, sk, hsk⟩ := ih r h
      exact ⟨hlt, now :: sk, by rw [hsk]; rfl⟩
    · simp only [Option.some.injEq, Prod.mk.injEq] at h
      obtain ⟨rfl, rfl⟩ := h
      exact ⟨by omega, [], rfl⟩

theorem generate_spec (n : Node) (hwf : n.wellFormed) (clock : List Int)
    (hsorted : clock.Pairwise (fun a b => a ≤ b))
    (hrange : ∀ r ∈ clock, n.time ≤ r ∧ r < 2 ^ 41)
    (id : Int) (n' : Node) (clock' : List Int)
    (h : n.Generate clock = some (id, n', clock')) :
    n'.wellFormed ∧ clock'.Pairwise (fun a b => a ≤ b) ∧ (∀ r ∈ clock', n'.time ≤ r ∧ r < 2 ^ 41)
      ∧ id = n'.last ∧ n.last < id := by
  obtain ⟨hsm, hts, hns, hn0, hn, hs0, hs, ht0⟩ := hwf
  have hstep : Int.land (wrapInt64 (n.step + 1)) n.stepMask = (n.step + 1) % 4096 := by
    rw [hsm]
    exact next_step n.step hs0 hs
  cases clock with
  | nil => simp [Node.Generate] at h
  | cons now clock =>
    have hnow := hrange now (List.mem_cons_self _ _)
    have hsorted' := List.pairwise_cons.1 hsorted
    unfold Node.Generate at h
    simp only at h
    rw [hstep] at h
    split at h
    · next heq =>
      split at h
      · next hz =>
        split at h
        · simp at h
        · next now' clock'' hw =>
          simp only [Option.some.injEq, Prod.mk.injEq] at h
          obtain ⟨hid, hn', hc'⟩ := h
          subst hid hn' hc'
          obtain ⟨hlt, sk, hsk⟩ := waitNext_spec _ _ _ _ _ hw
          have hmem : ∀ r ∈ now' :: clock'', r ∈ now :: clock := by
            intro r hr
            rw [hsk]
            exact List.mem_append_right _ hr
          have hnow' := hrange now' (hmem now' (List.mem_cons_self _ _))
          have hsorted2 : (now' :: clock'').Pairwise (fun a b => a ≤ b) := by
            rw [hsk] at hsorted
            exact (List.pairwise_append.1 hsorted).2.1
          have hsorted3 := List.pairwise_cons.1 hsorted2
          have hp := pack_eq n now' ((n.step + 1) % 4096) hts hns (by omega) hnow'.2 hn0 hn
            (by omega) (by omega)
          refine ⟨⟨hsm, hts, hns, hn0, hn, ?_, ?_, ?_⟩, hsorted3.2, ?_, ?_, ?_⟩
          · show 0 ≤ (n.step + 1) % 4096
            omega
          · show (n.step + 1) % 4096 ≤ 4095
            omega
          · show 0 ≤ now'
            omega
          · intro r hr
            exact ⟨hsorted3.1 r hr, (hrange r (hmem r (List.mem_cons_of_mem _ hr))).2⟩
          · rw [hp]
            rfl
          · rw [hp]
            unfold Node.last
            omega
      · next hz =>
        simp only [Option.some.injEq, Prod.mk.injEq] at h
        obtain ⟨hid, hn', hc'⟩ := h
        subst hid hn' hc'
        have hp := pack_eq n now ((n.step + 1) % 4096) hts hns (by omega) hnow.2 hn0 hn
          (by omega) (by omega)
        refine ⟨⟨hsm, hts, hns, hn0, hn, ?_, ?_, ?_⟩, hsorted'.2, ?_, ?_, ?_⟩
        · show 0 ≤ (n.step + 1) % 4096
          omega
        · show (n.step + 1) % 4096 ≤ 4095
          omega
        · show 0 ≤ now
          omega
        · intro r hr
          exact ⟨hsorted'.1 r hr, (hrange r (List.mem_cons_of_mem _ hr)).2⟩
        · rw [hp]
          rfl
        · rw [hp]
          unfold Node.last
          omega
    · next hne =>
      simp only [Option.some.injEq, Prod.mk.injEq] at h
      obtain ⟨hid, hn', hc'⟩ := h
      subst hid hn' hc'
      have hp := pack_eq n now 0 hts hns (by omega) hnow.2 hn0 hn (by omega) (by omega)
      refine ⟨⟨hsm, hts, hns, hn0, hn, ?_, ?_, ?_⟩, hsorted'.2, ?_, ?_, ?_⟩
      · show (0 : Int) ≤ 0
        omega
      · show (0 : Int) ≤ 4095
        omega
      · show 0 ≤ now
        omega
      · intro r hr
        exact ⟨hsorted'.1 r hr, (hrange r (List.mem_cons_of_mem _ hr)).2⟩
      · rw [hp]
        rfl
      · rw [hp]
        unfold Node.last
        omega

theorem generateIDs_above (calls : Nat) (n : Node) (hwf : n.wellFormed) (clock : List Int)
    (hsorted : clock.Pairwise (fun a b => a ≤ b))
    (hrange : ∀ r ∈ clock, n.time ≤ r ∧ r < 2 ^ 41) :
    (∀ id ∈ generateIDs calls n clock, n.last < id)
      ∧ (generateIDs calls n clock).Pairwise (fun a b => a < b) := by
  induction calls generalizing n clock with
  | zero => simp [generateIDs]
  | succ calls ih =>
    unfold generateIDs GenerateID
    split
    · simp
    · next id n' clock' hg =>
      obtain ⟨hwf', hs', hr', hid, hlt⟩ := generate_spec n hwf clock hsorted hrange id n' clock' hg
      obtain ⟨habove, hpair⟩ := ih n' hwf' clock' hs' hr'
      constructor
      · intro x hx
        rcases List.mem_cons.1 hx with rfl | hx
        · exact hlt
        · have := habove x hx
          omega
      · refine List.pairwise_cons.2 ⟨?_, hpair⟩
        intro x hx
        have := habove x hx
        omega

theorem init_ok (interfaceAddrs : Except GoError (List Addr)) :
    ∃ node, init interfaceAddrs = .ok node ∧ node.wellFormed ∧ node.time = 0
      ∧ node.node = getNodeIDFromIP interfaceAddrs ∧ node.step = 0 := by
  have hr : 0 ≤ getNodeIDFromIP interfaceAddrs ∧ getNodeIDFromIP interfaceAddrs ≤ 1023 := by
    cases interfaceAddrs with
    | error e => simp [getNodeIDFromIP]
    | ok addrs => exact scanAddrs_range addrs
  unfold init NewNode
  simp only [NodeBits, StepBits]
  rw [if_neg (by norm_num; omega)]
  refine ⟨_, rfl, ?_, rfl, rfl, rfl⟩
  refine ⟨by norm_num, rfl, rfl, hr.1, hr.2, by norm_num, by norm_num, by norm_num⟩

/-- C2: on a node made by `init`, successive calls of `GenerateID` whose clock
readings never decrease and stay within the 41 bits of the timestamp return
identifiers each of which is greater than every identifier before it; the
identifiers are therefore pairwise distinct. -/
theorem generateIDs_strictly_increasing (interfaceAddrs : Except GoError (List Addr))
    (calls : Nat) (clock : List Int)
    (hsorted : clock.Pairwise (fun a b => a ≤ b))
    (hrange : ∀ r ∈ clock, 0 ≤ r ∧ r < 2 ^ 41) :
    ∃ node, init interfaceAddrs = .ok node
      ∧ (generateIDs calls node clock).Pairwise (fun a b => a < b)
      ∧ (generateIDs calls node clock).Nodup := by
  obtain ⟨node, hinit, hwf, htime, _⟩ := init_ok interfaceAddrs
  have hr : ∀ r ∈ clock, node.time ≤ r ∧ r < 2 ^ 41 := by
    intro r hr
    rw [htime]
    exact hrange r hr
  have hp := (generateIDs_above calls node hwf clock hsorted hr).2
  exact ⟨node, hinit, hp, hp.imp (fun h => by omega)⟩

theorem generateIDs_strictly_increasing_witness :
    ([7, 7, 8] : List Int).Pairwise (fun a b => a ≤ b)
      ∧ (∀ r ∈ ([7, 7, 8] : List Int), 0 ≤ r ∧ r < 2 ^ 41)
      ∧ ∃ node, init (.ok [Addr.IPNet [192, 168, 1, 10] [255, 255, 255, 0]]) = .ok node
        ∧ (generateIDs 3 node [7, 7, 8]).Pairwise (fun a b => a < b)
        ∧ (generateIDs 3 node [7, 7, 8]).Nodup :=
  ⟨by decide, by decide,
    generateIDs_strictly_increasing (.ok [Addr.IPNet [192, 168, 1, 10] [255, 255, 255, 0]]) 3
      [7, 7, 8] (by decide) (by decide)⟩

/-- Three calls on node 514, two of them in the same millisecond: the node
`init` makes, and the identifiers. -/
theorem generateIDs_example :
    init (.ok [Addr.IPNet [127, 0, 0, 1] [255, 0, 0, 0],
        Addr.IPNet [192, 168, 1, 10] [255, 255, 255, 0]])
      = .ok ⟨0, 514, 0, 1023, 4190208, 4095, 22, 12⟩
    ∧ generateIDs 3 ⟨0, 514, 0, 1023, 4190208, 4095, 22, 12⟩ [7, 7, 8]
      = [7 * 2 ^ 22 + 514 * 2 ^ 12, 7 * 2 ^ 22 + 514 * 2 ^ 12 + 1, 8 * 2 ^ 22 + 514 * 2 ^ 12] := by
  decide

/-- A call of `Generate` returns as soon as the clock shows a later millisecond. -/
theorem waitNext_returns (last now : Int) (clock : List Int)
    (h : ∃ r ∈ now :: clock, last < r) : (waitNext last now clock).isSome = true := by
  induction clock generalizing now with
  | nil =>
    obtain ⟨r, hr, hlt⟩ := h
    simp only [List.mem_singleton] at hr
    subst hr
    unfold waitNext
    rw [if_neg (by omega)]
    rfl
  | cons c rest ih =>
    unfold waitNext
    split
    · next hle =>
      apply ih
      obtain ⟨r, hr, hlt⟩ := h
      rcases List.mem_cons.1 hr with rfl | hr
      · omega
      · exact ⟨r, hr, hlt⟩
    · rfl

/-! ### base64 -/

theorem decodeSextet_encodeSextet : ∀ v : Fin 64, decodeSextet (encodeSextet v.val) = some v.val := by
  decide

theorem encodeSextet_ne_dot : ∀ v : Fin 64, encodeSextet v.val ≠ 46 := by
  decide

theorem sextets_lt (src : Bytes) : ∀ v ∈ sextets src, v < 64 := by
  induction src using sextets.induct with
  | case1 b0 b1 b2 src ih =>
    intro v hv
    simp only [sextets, List.mem_cons] at hv
    rcases hv with rfl | rfl | rfl | rfl | hv
    · omega
    · omega
    · omega
    · omega
    · exact ih v hv
  | case2 b0 b1 =>
    intro v hv
    simp only [sextets, List.mem_cons, List.mem_singleton, List.not_mem_nil, or_false] at hv
    rcases hv with rfl | rfl | rfl <;> omega
  | case3 b0 =>
    intro v hv
    simp only [sextets, List.mem_cons, List.mem_singleton, List.not_mem_nil, or_false] at hv
    rcases hv with rfl | rfl <;> omega
  | case4 =>
    intro v hv
    simp [sextets] at hv

theorem decodeSextets_map (vs : List Nat) (h : ∀ v ∈ vs, v < 64) (si : Nat) :
    decodeSextets si (vs.map encodeSextet) = .ok vs := by
  induction vs generalizing si with
  | nil => rfl
  | cons v vs ih =>
    have hv : v < 64 := h v (List.mem_cons_self _ _)
    have := decodeSextet_encodeSextet ⟨v, hv⟩
    simp only at this
    simp only [List.map_cons, decodeSextets, this]
    rw [ih (fun w hw => h w (List.mem_cons_of_mem _ hw))]

theorem fin_ofNat_eq (b : Byte) (n : Nat) (h : n = b.val) : (Fin.ofNat n : Byte) = b := by
  apply Fin.ext
  subst h
  simp [Fin.ofNat]

theorem decodeQuanta_sextets (src : Bytes) : decodeQuanta (sextets src) = some src := by
  induction src using sextets.induct with
  | case1 b0 b1 b2 src ih =>
    simp only [sextets, decodeQuanta, ih]
    rw [fin_ofNat_eq b0 _ (by omega), fin_ofNat_eq b1 _ (by omega), fin_ofNat_eq b2 _ (by omega)]
  | case2 b0 b1 =>
    simp only [sextets, decodeQuanta]
    rw [fin_ofNat_eq b0 _ (by omega), fin_ofNat_eq b1 _ (by omega)]
  | case3 b0 =>
    simp only [sextets, decodeQuanta]
    rw [fin_ofNat_eq b0 _ (by omega)]
  | case4 => rfl

/-- Decoding undoes encoding (`RawURLEncoding`). -/
theorem decodeString_encodeToString (src : Bytes) :
    DecodeString (EncodeToString src) = .ok src := by
  unfold DecodeString EncodeToString
  rw [decodeSextets_map _ (sextets_lt src)]
  simp only [decodeQuanta_sextets]

/-- The encoding has no `.` in it. -/
theorem dot_not_mem_encodeToString (src : Bytes) : (46 : Byte) ∉ EncodeToString src := by
  unfold EncodeToString
  intro h
  obtain ⟨v, hv, he⟩ := List.mem_map.1 h
  exact encodeSextet_ne_dot ⟨v, sextets_lt src v hv⟩ he

/-! ### Split -/

theorem split_ne_nil (sep : Byte) (s : Bytes) : Split sep s ≠ [] := by
  cases s with
  | nil => simp [Split]
  | cons c s =>
    unfold Split
    split
    · simp
    · split <;> simp

theorem split_of_not_mem (sep : Byte) (s : Bytes) (h : sep ∉ s) : Split sep s = [s] := by
  induction s with
  | nil => rfl
  | cons c s ih =>
    have hc : c ≠ sep := fun e => h (by simp [e])
    have hs : sep ∉ s := fun e => h (List.mem_cons_of_mem _ e)
    simp [Split, hc, ih hs]

theorem split_append (sep : Byte) (a s : Bytes) (h : sep ∉ a) :
    Split sep (a ++ sep :: s) = a :: Split sep s := by
  induction a with
  | nil => simp [Split]
  | cons c a ih =>
    have hc : c ≠ sep := fun e => h (by simp [e])
    have hs : sep ∉ a := fun e => h (List.mem_cons_of_mem _ e)
    simp [Split, hc, ih hs]

theorem split_three (sep : Byte) (a b c : Bytes) (ha : sep ∉ a) (hb : sep ∉ b) (hc : sep ∉ c) :
    Split sep (a ++ [sep] ++ b ++ [sep] ++ c) = [a, b, c] := by
  have e : a ++ [sep] ++ b ++ [sep] ++ c = a ++ sep :: (b ++ sep :: c) := by simp
  rw [e, split_append sep a _ ha, split_append sep b _ hb, split_of_not_mem sep c hc]

/-- The first segment of a text that starts with `p`, when `p` has no separator:
it starts with `p`. -/
theorem split_head_append (sep : Byte) (p s : Bytes) (hp : sep ∉ p) :
    ∃ seg segs, Split sep (p ++ s) = (p ++ seg) :: segs := by
  induction p with
  | nil =>
    cases hs : Split sep s with
    | nil => exact absurd hs (split_ne_nil sep s)
    | cons seg segs => exact ⟨seg, segs, by simpa using hs⟩
  | cons c p ih =>
    have hc : c ≠ sep := fun e => hp (by simp [e])
    have hs : sep ∉ p := fun e => hp (List.mem_cons_of_mem _ e)
    obtain ⟨seg, segs, h⟩ := ih hs
    exact ⟨seg, segs, by simp [Split, hc, h]⟩

/-! ### Tokens: issuing and parsing -/

theorem str_dot : str "." = [46] := by decide

theorem getSigningMethod_hs256 : GetSigningMethod (str "HS256") = some SigningMethod.HS256 := by
  decide

theorem getSigningMethod_alg (alg : Bytes) (m : SigningMethod)
    (h : GetSigningMethod alg = some m) : m.Alg = alg := by
  unfold GetSigningMethod at h
  have := List.find?_some h
  simpa using this

theorem getSigningMethod_eq_hs256 (alg : Bytes)
    (h : GetSigningMethod alg = some SigningMethod.HS256) : alg = str "HS256" := by
  have := getSigningMethod_alg alg _ h
  rw [← this]
  rfl

/-- `GenerateToken` always returns a token: the claims it declares, signed with
the secret under HS256. -/
theorem generateToken_eq (D : Deps) (t0 t1 t2 : Int) (userID : Nat) (email : Bytes)
    (expire : Int) (secret : Bytes) :
    GenerateToken D t0 t1 t2 userID email expire secret
      = .ok (signedStringOf D (issuedClaims t0 t1 t2 userID email expire) secret) := rfl

theorem split_signedStringOf (D : Deps) (claims : CustomClaims) (key : Bytes) :
    Split 46 (signedStringOf D claims key)
      = [EncodeSegment (D.marshalHeader hs256Header), EncodeSegment (D.marshalClaims claims),
          EncodeSegment (hmacSHA256 key (signingStringOf D claims))] := by
  unfold signedStringOf signingStringOf Token.SigningString
  rw [str_dot]
  exact split_three 46 _ _ _ (dot_not_mem_encodeToString _) (dot_not_mem_encodeToString _)
    (dot_not_mem_encodeToString _)

/-- What `ParseToken` returns for a token signed with `key` when it is given the
secret `key'`, for a JSON layer that reads the token back: a signature error
when the two keys give different HMAC tags on the signed text, and otherwise the
outcome of the validation of the claims at the time `now`. -/
theorem parseToken_signedStringOf (D : Deps) (now : Int) (claims claims' : CustomClaims)
    (key key' : Bytes) (h : D.readsBack claims claims') :
    ParseToken D now (signedStringOf D claims key) key'
      = if hmacSHA256 key (signingStringOf D claims) = hmacSHA256 key' (signingStringOf D claims)
        then
          match Validate claims' now with
          | some err => .error (newError [] ErrTokenInvalidClaims [err])
          | Option.none => .ok claims'
        else .error (newError [] ErrTokenSignatureInvalid [ErrSignatureInvalid]) := by
  obtain ⟨⟨header, hH, halg⟩, hC⟩ := h
  unfold ParseToken ParseWithClaims ParseUnverified
  rw [split_signedStringOf]
  simp only [DecodeSegment, EncodeSegment, decodeString_encodeToString, hH, hC, halg,
    getSigningMethod_hs256]
  simp only [keyFunc, SigningMethodHS256, ne_eq, not_true_eq_false, ↓reduceIte,
    SigningMethod.Verify]
  have hs : EncodeToString (D.marshalHeader hs256Header) ++ str "."
      ++ EncodeToString (D.marshalClaims claims) = signingStringOf D claims := rfl
  rw [hs]
  by_cases he : hmacSHA256 key (signingStringOf D claims)
      = hmacSHA256 key' (signingStringOf D claims)
  · rw [if_pos he, if_pos he]
    simp only
    cases Validate claims' now with
    | none => rfl
    | some err => rfl
  · rw [if_neg he, if_neg he]

/-! ### Validation of the dates -/

theorem validate_none_iff (claims : CustomClaims) (now exp nbf : Int)
    (he : claims.ExpiresAt = some exp) (hn : claims.NotBefore = some nbf) :
    Validate claims now = Option.none ↔ nbf ≤ now ∧ now < exp := by
  unfold Validate verifyExpiresAt verifyNotBefore
  rw [he, hn]
  by_cases h1 : now < exp <;> by_cases h2 : now < nbf <;> simp [h1, h2]
  omega

theorem verifyExpiresAt_expired (claims : CustomClaims) (now exp : Int)
    (he : claims.ExpiresAt = some exp) (h : exp ≤ now) :
    verifyExpiresAt claims now = some ErrTokenExpired := by
  unfold verifyExpiresAt
  rw [he]
  simp only
  rw [if_neg (by omega)]

theorem verifyNotBefore_notYet (claims : CustomClaims) (now nbf : Int)
    (hn : claims.NotBefore = some nbf) (h : now < nbf) :
    verifyNotBefore claims now = some ErrTokenNotValidYet := by
  unfold verifyNotBefore
  rw [hn]
  simp only
  rw [if_neg (by omega)]

theorem validate_expired (claims : CustomClaims) (now exp : Int)
    (he : claims.ExpiresAt = some exp) (h : exp ≤ now) :
    ∃ err, Validate claims now = some err ∧ err.Is ErrTokenExpired = true := by
  unfold Validate
  rw [verifyExpiresAt_expired claims now exp he h]
  cases verifyNotBefore claims now with
  | none => exact ⟨_, rfl, by decide⟩
  | some e => exact ⟨_, rfl, by simp [GoError.Is, joinErrors, ErrTokenExpired, GoError.new]⟩

theorem validate_notYet (claims : CustomClaims) (now nbf : Int)
    (hn : claims.NotBefore = some nbf) (h : now < nbf) :
    ∃ err, Validate claims now = some err ∧ err.Is ErrTokenNotValidYet = true := by
  unfold Validate
  rw [verifyNotBefore_notYet claims now nbf hn h]
  cases verifyExpiresAt claims now with
  | none => exact ⟨_, rfl, by decide⟩
  | some e => exact ⟨_, rfl, by simp [GoError.Is, joinErrors, ErrTokenNotValidYet, GoError.new]⟩

theorem newError_is (message : Bytes) (err : GoError) (more : List GoError) (target : GoError)
    (h : ∃ e ∈ err :: more, e.Is target = true) : (newError message err more).Is target = true := by
  obtain ⟨e, he, hIs⟩ := h
  simp only [GoError.Is, decide_eq_true_eq] at hIs ⊢
  simp only [newError, List.mem_append, List.mem_flatten, List.mem_map]
  rcases List.mem_cons.1 he with rfl | he
  · exact Or.inl hIs
  · exact Or.inr ⟨e.chain, ⟨e, he, rfl⟩, hIs⟩

theorem truncateSecond_le (t : Int) : truncateSecond t ≤ t := by
  unfold truncateSecond Second
  omega

/-! ### Issuing, then verifying -/

theorem issuedClaims_expiresAt (t0 t1 t2 : Int) (userID : Nat) (email : Bytes) (expire : Int) :
    (issuedClaims t0 t1 t2 userID email expire).ExpiresAt
      = some (NewNumericDate (t0 + secondsDuration expire)) := rfl

theorem issuedClaims_notBefore (t0 t1 t2 : Int) (userID : Nat) (email : Bytes) (expire : Int) :
    (issuedClaims t0 t1 t2 userID email expire).NotBefore = some (NewNumericDate t2) := rfl

set_option maxRecDepth 100000 in
/-- The reference JSON layer reads the claims of user 7, `a@b.c`, issued at
second 1700000000 for an hour, back as they are. -/
theorem jsonDeps_readsBack :
    jsonDeps.readsBack
      (issuedClaims 1700000000000000000 1700000000000000000 1700000000000000000 7 (str "a@b.c")
        3600)
      (issuedClaims 1700000000000000000 1700000000000000000 1700000000000000000 7 (str "a@b.c")
        3600) :=
  ⟨⟨hs256Header, by decide, by decide⟩, by decide⟩

/-- C1 (as amended): a token that `GenerateToken` issues, verified by
`ParseToken` with the same secret at a time that is not before the issue and
before the expiry, gives back claims with the same user id and the same email,
provided that the JSON layer reads the claims back as they were written. -/
theorem parseToken_generateToken (D : Deps) (t0 t1 t2 now : Int) (userID : Nat) (email : Bytes)
    (expire : Int) (secret : Bytes)
    (hD : D.readsBack (issuedClaims t0 t1 t2 userID email expire)
      (issuedClaims t0 t1 t2 userID email expire))
    (hissued : t2 ≤ now)
    (hexp : now < NewNumericDate (t0 + secondsDuration expire)) :
    ∃ tokenString claims, GenerateToken D t0 t1 t2 userID email expire secret = .ok tokenString
      ∧ ParseToken D now tokenString secret = .ok claims
      ∧ claims.UserID = userID ∧ claims.Email = email := by
  refine ⟨_, issuedClaims t0 t1 t2 userID email expire, generateToken_eq .., ?_, rfl, rfl⟩
  rw [parseToken_signedStringOf D now _ _ secret secret hD, if_pos rfl]
  have hv := (validate_none_iff (issuedClaims t0 t1 t2 userID email expire) now _ _
    (issuedClaims_expiresAt ..) (issuedClaims_notBefore ..)).2
    ⟨le_trans (truncateSecond_le t2) hissued, hexp⟩
  rw [hv]

theorem parseToken_generateToken_witness :
    jsonDeps.readsBack
        (issuedClaims 1700000000000000000 1700000000000000000 1700000000000000000 7
          (str "a@b.c") 3600)
        (issuedClaims 1700000000000000000 1700000000000000000 1700000000000000000 7
          (str "a@b.c") 3600)
      ∧ (1700000000000000000 : Int) ≤ 1700000000500000000
      ∧ (1700000000500000000 : Int) < NewNumericDate (1700000000000000000 + secondsDuration 3600)
      ∧ ∃ tokenString claims,
          GenerateToken jsonDeps 1700000000000000000 1700000000000000000 1700000000000000000 7
            (str "a@b.c") 3600 (str "secret") = .ok tokenString
          ∧ ParseToken jsonDeps 1700000000500000000 tokenString (str "secret") = .ok claims
          ∧ claims.UserID = 7 ∧ claims.Email = str "a@b.c" :=
  ⟨jsonDeps_readsBack, by decide, by decide,
    parseToken_generateToken jsonDeps 1700000000000000000 1700000000000000000
      1700000000000000000 1700000000500000000 7 (str "a@b.c") 3600 (str "secret")
      jsonDeps_readsBack (by decide) (by decide)⟩

set_option maxRecDepth 100000 in
/-- The reference JSON layer reads the claims of the email `0xFF`, which is not
UTF-8, back with the email U+FFFD. -/
theorem jsonDeps_readsBack_replaced :
    jsonDeps.readsBack
      (issuedClaims 1700000000000000000 1700000000000000000 1700000000000000000 7 [0xff] 3600)
      (issuedClaims 1700000000000000000 1700000000000000000 1700000000000000000 7
        [0xef, 0xbf, 0xbd] 3600) :=
  ⟨⟨hs256Header, by decide, by decide⟩, by decide⟩

/-- C1 (as stated) fails for an email that is not UTF-8: `json.Marshal` writes
the byte `0xFF` as U+FFFD, and the claims that `ParseToken` returns hold the
three bytes of U+FFFD in place of it. -/
theorem parseToken_generateToken_email_replaced :
    ∃ tokenString claims,
      GenerateToken jsonDeps 1700000000000000000 1700000000000000000 1700000000000000000 7
        [0xff] 3600 (str "secret") = .ok tokenString
      ∧ ParseToken jsonDeps 1700000000500000000 tokenString (str "secret") = .ok claims
      ∧ claims.UserID = 7 ∧ claims.Email = [0xef, 0xbf, 0xbd] ∧ claims.Email ≠ [0xff] := by
  refine ⟨_, issuedClaims 1700000000000000000 1700000000000000000 1700000000000000000 7
    [0xef, 0xbf, 0xbd] 3600, generateToken_eq .., ?_, rfl, rfl, by decide⟩
  rw [parseToken_signedStringOf jsonDeps _ _ _ _ _ jsonDeps_readsBack_replaced, if_pos rfl]
  have hv : Validate (issuedClaims 1700000000000000000 1700000000000000000 1700000000000000000
      7 [0xef, 0xbf, 0xbd] 3600) 1700000000500000000 = Option.none := by decide
  rw [hv]

/-! ### Verifying with another secret -/

theorem hmacSHA256_congr (key key' message : Bytes) (h : hmacKey key = hmacKey key') :
    hmacSHA256 key message = hmacSHA256 key' message := by
  unfold hmacSHA256
  rw [h]

/-- C4 (as amended): a token issued with the secret `s1` and verified with the
secret `s2` fails with the signature error whenever the two secrets give
different HMAC-SHA256 tags on the signed text (the JSON layer reading the token
back). -/
theorem parseToken_other_secret (D : Deps) (t0 t1 t2 now : Int) (userID : Nat) (email : Bytes)
    (expire : Int) (s1 s2 : Bytes) (claims' : CustomClaims)
    (hD : D.readsBack (issuedClaims t0 t1 t2 userID email expire) claims')
    (htag : hmacSHA256 s1 (signingStringOf D (issuedClaims t0 t1 t2 userID email expire))
      ≠ hmacSHA256 s2 (signingStringOf D (issuedClaims t0 t1 t2 userID email expire))) :
    ∃ tokenString err, GenerateToken D t0 t1 t2 userID email expire s1 = .ok tokenString
      ∧ ParseToken D now tokenString s2 = .error err
      ∧ err.Is ErrTokenSignatureInvalid = true := by
  refine ⟨_, newError [] ErrTokenSignatureInvalid [ErrSignatureInvalid], generateToken_eq ..,
    ?_, ?_⟩
  · rw [parseToken_signedStringOf D now _ _ s1 s2 hD, if_neg htag]
  · decide

set_option maxRecDepth 1000000 in
theorem parseToken_other_secret_witness :
    jsonDeps.readsBack
        (issuedClaims 1700000000000000000 1700000000000000000 1700000000000000000 7
          (str "a@b.c") 3600)
        (issuedClaims 1700000000000000000 1700000000000000000 1700000000000000000 7
          (str "a@b.c") 3600)
      ∧ hmacSHA256 (str "secret") (signingStringOf jsonDeps
            (issuedClaims 1700000000000000000 1700000000000000000 1700000000000000000 7
              (str "a@b.c") 3600))
          ≠ hmacSHA256 (str "Secret") (signingStringOf jsonDeps
            (issuedClaims 1700000000000000000 1700000000000000000 1700000000000000000 7
              (str "a@b.c") 3600))
      ∧ ∃ tokenString err,
          GenerateToken jsonDeps 1700000000000000000 1700000000000000000 1700000000000000000 7
            (str "a@b.c") 3600 (str "secret") = .ok tokenString
          ∧ ParseToken jsonDeps 1700000000500000000 tokenString (str "Secret") = .error err
          ∧ err.Is ErrTokenSignatureInvalid = true :=
  ⟨jsonDeps_readsBack, by decide,
    parseToken_other_secret jsonDeps 1700000000000000000 1700000000000000000
      1700000000000000000 1700000000500000000 7 (str "a@b.c") 3600 (str "secret") (str "Secret")
      _ jsonDeps_readsBack (by decide)⟩

/-- C4 (as stated) fails: the secrets `a` and `a\x00` are different, and a token
issued with the first verifies with the second, because HMAC fills a short key
with zero bytes. -/
theorem parseToken_zero_padded_secret :
    str "a" ≠ str "a" ++ [0]
      ∧ ∃ tokenString claims,
          GenerateToken jsonDeps 1700000000000000000 1700000000000000000 1700000000000000000 7
            (str "a@b.c") 3600 (str "a") = .ok tokenString
          ∧ ParseToken jsonDeps 1700000000500000000 tokenString (str "a" ++ [0]) = .ok claims
          ∧ claims.UserID = 7 := by
  refine ⟨by decide, _, issuedClaims 1700000000000000000 1700000000000000000
    1700000000000000000 7 (str "a@b.c") 3600, generateToken_eq .., ?_, rfl⟩
  rw [parseToken_signedStringOf jsonDeps _ _ _ _ _ jsonDeps_readsBack,
    if_pos (hmacSHA256_congr _ _ _ (by decide))]
  have hv : Validate (issuedClaims 1700000000000000000 1700000000000000000 1700000000000000000
      7 (str "a@b.c") 3600) 1700000000500000000 = Option.none := by decide
  rw [hv]

/-! ### The window of validity -/

/-- C5 (as amended): a token issued by `GenerateToken` carries the not-before
time `nbf` (the third clock reading, cut to the second) and the expiry `exp`
(the first reading plus the ttl, cut to the second). Verified with the same
secret at `now`, it is accepted exactly when `nbf ≤ now < exp`; it fails with
`Expired` when `exp ≤ now` and with `NotYetValid` when `now < nbf`. The JSON
layer has only to read the token back with these two dates: the other claims
may come back changed, as the email does when it is not UTF-8. -/
theorem parseToken_window (D : Deps) (t0 t1 t2 now : Int) (userID : Nat) (email : Bytes)
    (expire : Int) (secret : Bytes) (claims' : CustomClaims)
    (hD : D.readsBack (issuedClaims t0 t1 t2 userID email expire) claims')
    (hexp : claims'.ExpiresAt = (issuedClaims t0 t1 t2 userID email expire).ExpiresAt)
    (hnbf : claims'.NotBefore = (issuedClaims t0 t1 t2 userID email expire).NotBefore) :
    ∃ tokenString, GenerateToken D t0 t1 t2 userID email expire secret = .ok tokenString
      ∧ ((∃ claims, ParseToken D now tokenString secret = .ok claims)
          ↔ NewNumericDate t2 ≤ now ∧ now < NewNumericDate (t0 + secondsDuration expire))
      ∧ (NewNumericDate (t0 + secondsDuration expire) ≤ now →
          ∃ err, ParseToken D now tokenString secret = .error err
            ∧ err.Is ErrTokenExpired = true)
      ∧ (now < NewNumericDate t2 →
          ∃ err, ParseToken D now tokenString secret = .error err
            ∧ err.Is ErrTokenNotValidYet = true) := by
  have he : claims'.ExpiresAt = some (NewNumericDate (t0 + secondsDuration expire)) :=
    hexp.trans (issuedClaims_expiresAt ..)
  have hn : claims'.NotBefore = some (NewNumericDate t2) :=
    hnbf.trans (issuedClaims_notBefore ..)
  refine ⟨_, generateToken_eq .., ?_, ?_, ?_⟩
  · rw [parseToken_signedStringOf D now _ _ secret secret hD, if_pos rfl,
      ← validate_none_iff claims' now _ _ he hn]
    cases Validate claims' now with
    | none => simp
    | some e => simp
  · intro h
    obtain ⟨e, hv, hIs⟩ := validate_expired claims' now _ he h
    rw [parseToken_signedStringOf D now _ _ secret secret hD, if_pos rfl, hv]
    exact ⟨_, rfl, newError_is _ _ _ _ ⟨e, by simp, hIs⟩⟩
  · intro h
    obtain ⟨e, hv, hIs⟩ := validate_notYet claims' now _ hn h
    rw [parseToken_signedStringOf D now _ _ secret secret hD, if_pos rfl, hv]
    exact ⟨_, rfl, newError_is _ _ _ _ ⟨e, by simp, hIs⟩⟩

theorem parseToken_window_witness :
    jsonDeps.readsBack
        (issuedClaims 1700000000000000000 1700000000000000000 1700000000000000000 7 [0xff] 3600)
        (issuedClaims 1700000000000000000 1700000000000000000 1700000000000000000 7
          [0xef, 0xbf, 0xbd] 3600)
      ∧ (issuedClaims 1700000000000000000 1700000000000000000 1700000000000000000 7
          [0xef, 0xbf, 0xbd] 3600).ExpiresAt
        = (issuedClaims 1700000000000000000 1700000000000000000 1700000000000000000 7 [0xff]
          3600).ExpiresAt
      ∧ (issuedClaims 1700000000000000000 1700000000000000000 1700000000000000000 7
          [0xef, 0xbf, 0xbd] 3600).NotBefore
        = (issuedClaims 1700000000000000000 1700000000000000000 1700000000000000000 7 [0xff]
          3600).NotBefore
      ∧ ∃ tokenString,
          GenerateToken jsonDeps 1700000000000000000 1700000000000000000 1700000000000000000 7
            [0xff] 3600 (str "secret") = .ok tokenString
          ∧ ((∃ claims, ParseToken jsonDeps 1700003599999999999 tokenString (str "secret")
                = .ok claims)
              ↔ NewNumericDate 1700000000000000000 ≤ 1700003599999999999
                ∧ 1700003599999999999
                  < NewNumericDate (1700000000000000000 + secondsDuration 3600))
          ∧ (NewNumericDate (1700000000000000000 + secondsDuration 3600) ≤ 1700003599999999999 →
              ∃ err, ParseToken jsonDeps 1700003599999999999 tokenString (str "secret")
                  = .error err ∧ err.Is ErrTokenExpired = true)
          ∧ (1700003599999999999 < NewNumericDate 1700000000000000000 →
              ∃ err, ParseToken jsonDeps 1700003599999999999 tokenString (str "secret")
                  = .error err ∧ err.Is ErrTokenNotValidYet = true) :=
  ⟨jsonDeps_readsBack_replaced, rfl, rfl,
    parseToken_window jsonDeps 1700000000000000000 1700000000000000000 1700000000000000000
      1700003599999999999 7 [0xff] 3600 (str "secret") _ jsonDeps_readsBack_replaced rfl rfl⟩

/-- C5 (as stated) fails at the expiry itself: a token issued at second
1700000000 for 3600 seconds expires at second 1700003600, and verified at that
very time, which is between not-before and the expiry inclusive, it is refused
as expired. -/
theorem parseToken_at_expiry :
    NewNumericDate (1700000000000000000 + secondsDuration 3600) = 1700003600000000000
      ∧ NewNumericDate 1700000000000000000 ≤ 1700003600000000000
      ∧ ∃ tokenString err,
          GenerateToken jsonDeps 1700000000000000000 1700000000000000000 1700000000000000000 7
            (str "a@b.c") 3600 (str "secret") = .ok tokenString
          ∧ ParseToken jsonDeps 1700003600000000000 tokenString (str "secret") = .error err
          ∧ err.Is ErrTokenExpired = true := by
  refine ⟨by decide, by decide, _, newError [] ErrTokenInvalidClaims [ErrTokenExpired],
    generateToken_eq .., ?_, ?_⟩
  · rw [parseToken_signedStringOf jsonDeps _ _ _ _ _ jsonDeps_readsBack, if_pos rfl]
    have hv : Validate (issuedClaims 1700000000000000000 1700000000000000000
        1700000000000000000 7 (str "a@b.c") 3600) 1700003600000000000
        = some ErrTokenExpired := by decide
    rw [hv]
  · decide

/-! ### The algorithm tag -/

/-- C3: a token string whose header does not carry the algorithm tag `HS256`
is refused by `ParseToken`, whatever its payload, its signature and the secret
are. -/
theorem parseToken_rejects_other_alg (D : Deps) (now : Int) (tokenString secret : Bytes)
    (h : headerAlg D tokenString ≠ some (str "HS256")) :
    ∃ err, ParseToken D now tokenString secret = .error err := by
  unfold headerAlg at h
  unfold ParseToken ParseWithClaims ParseUnverified
  rcases hS : Split 46 tokenString with _ | ⟨p0, _ | ⟨p1, _ | ⟨p2, _ | ⟨p3, rest⟩⟩⟩⟩
  · exact ⟨_, rfl⟩
  · exact ⟨_, rfl⟩
  · exact ⟨_, rfl⟩
  · rw [hS] at h
    simp only at h ⊢
    cases hd : DecodeSegment p0 with
    | error e => exact ⟨_, rfl⟩
    | ok headerBytes =>
      rw [hd] at h
      simp only at h ⊢
      cases hu : D.unmarshalHeader headerBytes with
      | error e => exact ⟨_, rfl⟩
      | ok header =>
        rw [hu] at h
        simp only at h ⊢
        cases hd1 : DecodeSegment p1 with
        | error e => exact ⟨_, rfl⟩
        | ok claimBytes =>
          simp only
          cases hc : D.unmarshalClaims claimBytes with
          | error e => exact ⟨_, rfl⟩
          | ok claims =>
            simp only
            cases ha : header.alg with
            | none => exact ⟨_, rfl⟩
            | some alg =>
              simp only
              cases hm : GetSigningMethod alg with
              | none => exact ⟨_, rfl⟩
              | some method =>
                simp only
                cases hd2 : DecodeSegment p2 with
                | error e => exact ⟨_, rfl⟩
                | ok sig =>
                  simp only
                  have hne : method ≠ SigningMethodHS256 := by
                    intro hmeq
                    rw [hmeq] at hm
                    have := getSigningMethod_eq_hs256 alg hm
                    rw [ha, this] at h
                    exact h rfl
                  simp only [keyFunc, hne, ne_eq, not_false_eq_true, ↓reduceIte]
                  exact ⟨_, rfl⟩
  · exact ⟨_, rfl⟩

theorem parseToken_rejects_other_alg_witness :
    headerAlg jsonDeps (str "eyJhbGciOiJIUzM4NCIsInR5cCI6IkpXVCJ9.e30.") = some (str "HS384")
      ∧ headerAlg jsonDeps (str "eyJhbGciOiJIUzM4NCIsInR5cCI6IkpXVCJ9.e30.") ≠ some (str "HS256")
      ∧ ∃ err, ParseToken jsonDeps 0 (str "eyJhbGciOiJIUzM4NCIsInR5cCI6IkpXVCJ9.e30.")
          (str "secret") = .error err :=
  ⟨by decide, by decide,
    parseToken_rejects_other_alg jsonDeps 0 (str "eyJhbGciOiJIUzM4NCIsInR5cCI6IkpXVCJ9.e30.")
      (str "secret") (by decide)⟩

/-- The header of a token that `GenerateToken` issues carries the tag `HS256`
(for a JSON layer that reads the header back). -/
theorem headerAlg_signedStringOf (D : Deps) (claims claims' : CustomClaims) (key : Bytes)
    (h : D.readsBack claims claims') :
    headerAlg D (signedStringOf D claims key) = some (str "HS256") := by
  obtain ⟨⟨header, hH, halg⟩, _⟩ := h
  unfold headerAlg
  rw [split_signedStringOf]
  simp only [DecodeSegment, EncodeSegment, decodeString_encodeToString, hH, halg]

/-! ### The `Bearer ` prefix -/

theorem decodeSegment_bearer (seg : Bytes) :
    DecodeSegment (BearerPrefix ++ seg) = .error (CorruptInputError 6) := rfl

/-- A token string that starts with `Bearer ` is refused: its first segment has
a blank, which is no letter of base64. -/
theorem parseToken_bearer (D : Deps) (now : Int) (t secret : Bytes) :
    ∃ err, ParseToken D now (BearerPrefix ++ t) secret = .error err := by
  obtain ⟨seg, segs, hS⟩ := split_head_append 46 BearerPrefix t (by decide)
  unfold ParseToken ParseWithClaims ParseUnverified
  rw [hS]
  rcases segs with _ | ⟨p1, _ | ⟨p2, _ | ⟨p3, rest⟩⟩⟩
  · exact ⟨_, rfl⟩
  · exact ⟨_, rfl⟩
  · simp only [decodeSegment_bearer]
    exact ⟨_, rfl⟩
  · exact ⟨_, rfl⟩

/-- C7 (as amended): for a token string `t` that does not itself start with
`Bearer `, `validateTokenAndGetUserID` gives the same result for `Bearer ` + `t`
as for `t`; in both cases the string handed to `ParseToken` is `t`, unaltered. -/
theorem validate_bearer (m : AuthMiddleware) (D : Deps) (now : Int) (t : Bytes)
    (h : HasPrefix t BearerPrefix = false) :
    m.validateTokenAndGetUserID D now (BearerPrefix ++ t) = m.validateTokenAndGetUserID D now t
      ∧ tokenStringOf (BearerPrefix ++ t) = t ∧ tokenStringOf t = t := by
  refine ⟨?_, tokenStringOf_bearer t, tokenStringOf_of_not t h⟩
  unfold AuthMiddleware.validateTokenAndGetUserID
  rw [tokenStringOf_bearer t, tokenStringOf_of_not t h]

theorem validate_bearer_witness :
    HasPrefix (str "eyJhbGciOiJIUzM4NCIsInR5cCI6IkpXVCJ9.e30.") BearerPrefix = false
      ∧ (NewAuthMiddleware (str "secret")).validateTokenAndGetUserID jsonDeps 0
          (BearerPrefix ++ str "eyJhbGciOiJIUzM4NCIsInR5cCI6IkpXVCJ9.e30.")
        = (NewAuthMiddleware (str "secret")).validateTokenAndGetUserID jsonDeps 0
          (str "eyJhbGciOiJIUzM4NCIsInR5cCI6IkpXVCJ9.e30.")
      ∧ tokenStringOf (BearerPrefix ++ str "eyJhbGciOiJIUzM4NCIsInR5cCI6IkpXVCJ9.e30.")
        = str "eyJhbGciOiJIUzM4NCIsInR5cCI6IkpXVCJ9.e30."
      ∧ tokenStringOf (str "eyJhbGciOiJIUzM4NCIsInR5cCI6IkpXVCJ9.e30.")
        = str "eyJhbGciOiJIUzM4NCIsInR5cCI6IkpXVCJ9.e30." :=
  ⟨by decide,
    validate_bearer (NewAuthMiddleware (str "secret")) jsonDeps 0
      (str "eyJhbGciOiJIUzM4NCIsInR5cCI6IkpXVCJ9.e30.") (by decide)⟩

/-- The user id `validateTokenAndGetUserID` returns for a credential whose
token `ParseToken` accepts. -/
theorem validate_of_parseToken (m : AuthMiddleware) (D : Deps) (now : Int) (a : Bytes)
    (claims : CustomClaims) (h : ParseToken D now (tokenStringOf a) m.secret = .ok claims) :
    m.validateTokenAndGetUserID D now a = .ok claims.UserID := by
  unfold AuthMiddleware.validateTokenAndGetUserID
  rw [h]

/-- C7 (as stated) fails for a token string that itself starts with `Bearer `:
with `t` the string `Bearer ` followed by a valid token of user 7, the
credential `t` is accepted (its prefix is removed), and the credential
`Bearer ` + `t` is refused (the string `t` is handed to `ParseToken`). -/
theorem validate_bearer_twice :
    (NewAuthMiddleware (str "secret")).validateTokenAndGetUserID jsonDeps 1700000000500000000
        (BearerPrefix ++ signedStringOf jsonDeps
          (issuedClaims 1700000000000000000 1700000000000000000 1700000000000000000 7
            (str "a@b.c") 3600) (str "secret")) = .ok 7
      ∧ ∃ err, (NewAuthMiddleware (str "secret")).validateTokenAndGetUserID jsonDeps
          1700000000500000000
          (BearerPrefix ++ (BearerPrefix ++ signedStringOf jsonDeps
            (issuedClaims 1700000000000000000 1700000000000000000 1700000000000000000 7
              (str "a@b.c") 3600) (str "secret"))) = .error err := by
  constructor
  · apply validate_of_parseToken _ _ _ _
      (issuedClaims 1700000000000000000 1700000000000000000 1700000000000000000 7
        (str "a@b.c") 3600)
    rw [tokenStringOf_bearer]
    show ParseToken jsonDeps _ _ (str "secret") = _
    rw [parseToken_signedStringOf jsonDeps _ _ _ _ _ jsonDeps_readsBack, if_pos rfl]
    have hv : Validate (issuedClaims 1700000000000000000 1700000000000000000
        1700000000000000000 7 (str "a@b.c") 3600) 1700000000500000000 = Option.none := by decide
    rw [hv]
  · unfold AuthMiddleware.validateTokenAndGetUserID
    rw [tokenStringOf_bearer]
    obtain ⟨err, he⟩ := parseToken_bearer jsonDeps 1700000000500000000
      (signedStringOf jsonDeps
        (issuedClaims 1700000000000000000 1700000000000000000 1700000000000000000 7
          (str "a@b.c") 3600) (str "secret")) (NewAuthMiddleware (str "secret")).secret
    exact ⟨err, by rw [he]⟩

/-! ### The middleware: when the handler is called -/

theorem validate_ok (m : AuthMiddleware) (D : Deps) (now : Int) (a : Bytes) (userID : Nat)
    (h : m.validateTokenAndGetUserID D now a = .ok userID) :
    ∃ claims, ParseToken D now (tokenStringOf a) m.secret = .ok claims
      ∧ claims.UserID = userID := by
  unfold AuthMiddleware.validateTokenAndGetUserID at h
  cases hp : ParseToken D now (tokenStringOf a) m.secret with
  | error e => rw [hp] at h; cases h
  | ok claims =>
    rw [hp] at h
    exact ⟨claims, rfl, Except.ok.inj h⟩

/-- `Handle` calls `next` only for a credential whose token `ParseToken`
accepts, and hands it the user id of the claims. -/
theorem handle_next (m : AuthMiddleware) (D : Deps) (now : Int) (authHeader : Bytes)
    (userID : Nat) (h : m.Handle D now authHeader = .next userID) :
    ∃ claims, ParseToken D now (tokenStringOf authHeader) m.secret = .ok claims
      ∧ claims.UserID = userID := by
  unfold AuthMiddleware.Handle at h
  split at h
  · cases h
  · cases hv : m.validateTokenAndGetUserID D now authHeader with
    | error e => rw [hv] at h; cases h
    | ok u =>
      rw [hv] at h
      have hu : u = userID := by
        simp only [Handled.next.injEq] at h
        exact h
      exact hu ▸ validate_ok m D now authHeader u hv

theorem middleware_calls_handler (m : AuthMiddleware) (D : Deps) (now : Int) (tr : Option Transporter)
    (userID : Option Nat) (h : m.Middleware D now tr = .handler userID) :
    ∃ t token claims, tr = some t
      ∧ ((t.kind = Kind.HTTP ∧ token = t.requestHeader (str "Authorization"))
        ∨ (t.kind = Kind.GRPC ∧ token = t.requestHeader (str "authorization")))
      ∧ ParseToken D now (tokenStringOf token) m.secret = .ok claims
      ∧ userID = some claims.UserID := by
  unfold AuthMiddleware.Middleware at h
  cases tr with
  | none => cases h
  | some t =>
    simp only at h
    cases hk : t.kind with
    | other name => rw [hk] at h; cases h
    | HTTP =>
      rw [hk] at h
      simp only at h
      split at h
      · cases h
      · cases hv : m.validateTokenAndGetUserID D now (t.requestHeader (str "Authorization")) with
        | error e => rw [hv] at h; cases h
        | ok u =>
          rw [hv] at h
          obtain ⟨claims, hp, hu⟩ := validate_ok m D now _ u hv
          simp only [Outcome.handler.injEq] at h
          exact ⟨t, _, claims, rfl, Or.inl ⟨hk, rfl⟩, hp, by rw [← h, hu]⟩
    | GRPC =>
      rw [hk] at h
      simp only at h
      split at h
      · cases h
      · cases hv : m.validateTokenAndGetUserID D now (t.requestHeader (str "authorization")) with
        | error e => rw [hv] at h; cases h
        | ok u =>
          rw [hv] at h
          obtain ⟨claims, hp, hu⟩ := validate_ok m D now _ u hv
          simp only [Outcome.handler.injEq] at h
          exact ⟨t, _, claims, rfl, Or.inr ⟨hk, rfl⟩, hp, by rw [← h, hu]⟩

/-- The middleware with a whitelist calls the handler in three cases: the
context holds no transport; the request is an HTTP request for a whitelisted
operation; the credential of the request holds a token `ParseToken` accepts. -/
theorem whitelist_middleware_handler (m : AuthMiddlewareWithWhitelist) (D : Deps) (now : Int)
    (tr : Option Transporter) (userID : Option Nat)
    (h : m.Middleware D now tr = .handler userID) :
    tr = Option.none
      ∨ (∃ t, tr = some t ∧ t.kind = Kind.HTTP ∧ m.whitelist t.operation = true)
      ∨ ∃ t token claims, tr = some t
          ∧ ((t.kind = Kind.HTTP ∧ token = t.requestHeader (str "Authorization"))
            ∨ (t.kind = Kind.GRPC ∧ token = t.requestHeader (str "authorization")))
          ∧ ParseToken D now (tokenStringOf token) m.secret = .ok claims
          ∧ userID = some claims.UserID := by
  unfold AuthMiddlewareWithWhitelist.Middleware at h
  cases tr with
  | none => exact Or.inl rfl
  | some t =>
    simp only at h
    split at h
    · next hw => exact Or.inr (Or.inl ⟨t, rfl, hw.1, hw.2⟩)
    · exact Or.inr (Or.inr (middleware_calls_handler m.toAuthMiddleware D now (some t) userID h))

/-- C6 fails on `AuthMiddlewareWithWhitelist.Middleware`: for a context that
holds no transport it calls the handler, with an empty whitelist and without
any credential, where `AuthMiddleware.Middleware` rejects the same request. -/
theorem whitelist_middleware_without_transport :
    (NewAuthMiddlewareWithWhitelist (str "secret") []).Middleware jsonDeps 0 Option.none
        = .handler Option.none
      ∧ (NewAuthMiddleware (str "secret")).Middleware jsonDeps 0 Option.none
        = .rejected ⟨401, str "unauthorized", unauthorizedMessage⟩ := by
  constructor <;> rfl

/-! ### The middleware: what a rejection says -/

theorem body_eq_iff (code : Nat) (m1 m2 : Bytes) :
    (writeErrorResponse code m1).body = (writeErrorResponse code m2).body ↔ m1 = m2 := by
  unfold writeErrorResponse
  simp only [List.append_assoc, List.append_cancel_left_eq, List.append_cancel_right_eq]

/-- C9 (as amended): two requests whose credentials fail verification get
responses with the same status, content type and code: `Handle` writes status
200 and content type `application/json` with the code 401 in the body, and the
go-kratos middleware returns code 401 with the reason `unauthorized`. The
message is the text of the verification error, so the two bodies are equal
exactly when the two errors have the same text. -/
theorem rejection_carries_error_text (m : AuthMiddleware) (D : Deps) (now : Int)
    (a1 a2 : Bytes) (e1 e2 : GoError) (kind : Kind) (operation : Bytes)
    (h1 : a1 ≠ []) (h2 : a2 ≠ [])
    (hv1 : m.validateTokenAndGetUserID D now a1 = .error e1)
    (hv2 : m.validateTokenAndGetUserID D now a2 = .error e2)
    (hk : kind = Kind.HTTP ∨ kind = Kind.GRPC) :
    m.Handle D now a1 = .rejected (writeErrorResponse StatusUnauthorized e1.text)
      ∧ m.Handle D now a2 = .rejected (writeErrorResponse StatusUnauthorized e2.text)
      ∧ (writeErrorResponse StatusUnauthorized e1.text).status
          = (writeErrorResponse StatusUnauthorized e2.text).status
      ∧ (writeErrorResponse StatusUnauthorized e1.text).contentType
          = (writeErrorResponse StatusUnauthorized e2.text).contentType
      ∧ ((writeErrorResponse StatusUnauthorized e1.text).body
          = (writeErrorResponse StatusUnauthorized e2.text).body ↔ e1.text = e2.text)
      ∧ m.Middleware D now (some ⟨kind, operation, fun _ => a1⟩)
          = .rejected ⟨401, str "unauthorized", e1.text⟩
      ∧ m.Middleware D now (some ⟨kind, operation, fun _ => a2⟩)
          = .rejected ⟨401, str "unauthorized", e2.text⟩ := by
  refine ⟨?_, ?_, rfl, rfl, body_eq_iff _ _ _, ?_, ?_⟩
  · unfold AuthMiddleware.Handle
    rw [if_neg h1, hv1]
  · unfold AuthMiddleware.Handle
    rw [if_neg h2, hv2]
  · unfold AuthMiddleware.Middleware
    rcases hk with rfl | rfl <;> simp only [if_neg h1, hv1]
  · unfold AuthMiddleware.Middleware
    rcases hk with rfl | rfl <;> simp only [if_neg h2, hv2]

theorem rejection_carries_error_text_witness :
    str "x" ≠ [] ∧ str "a.b.c" ≠ []
      ∧ (NewAuthMiddleware (str "secret")).validateTokenAndGetUserID jsonDeps 0 (str "x")
        = .error (newError (str "token contains an invalid number of segments")
            ErrTokenMalformed [])
      ∧ (NewAuthMiddleware (str "secret")).validateTokenAndGetUserID jsonDeps 0 (str "a.b.c")
        = .error (newError (str "could not base64 decode header") ErrTokenMalformed
            [CorruptInputError 0])
      ∧ (NewAuthMiddleware (str "secret")).Handle jsonDeps 0 (str "x")
        = .rejected (writeErrorResponse StatusUnauthorized
            (str "token is malformed: token contains an invalid number of segments"))
      ∧ (NewAuthMiddleware (str "secret")).Handle jsonDeps 0 (str "a.b.c")
        = .rejected (writeErrorResponse StatusUnauthorized
            (str ("token is malformed: could not base64 decode header: "
              ++ "illegal base64 data at input byte 0"))) :=
  have h := rejection_carries_error_text (NewAuthMiddleware (str "secret")) jsonDeps 0
    (str "x") (str "a.b.c")
    (newError (str "token contains an invalid number of segments") ErrTokenMalformed [])
    (newError (str "could not base64 decode header") ErrTokenMalformed [CorruptInputError 0])
    Kind.HTTP [] (by decide) (by decide) (by decide) (by decide) (Or.inl rfl)
  ⟨by decide, by decide, by decide, by decide, h.1, h.2.1⟩

/-- What `Handle` and the go-kratos middleware do with a credential whose
token `ParseToken` refuses. -/
theorem rejected_of_parseToken (m : AuthMiddleware) (D : Deps) (now : Int) (a : Bytes)
    (err : GoError) (ha : a ≠ [])
    (h : ParseToken D now (tokenStringOf a) m.secret = .error err) :
    m.Handle D now a = .rejected (writeErrorResponse StatusUnauthorized err.text)
      ∧ m.Middleware D now (some ⟨Kind.HTTP, [], fun _ => a⟩)
        = .rejected ⟨401, str "unauthorized", err.text⟩ := by
  have hv : m.validateTokenAndGetUserID D now a = .error err := by
    unfold AuthMiddleware.validateTokenAndGetUserID
    rw [h]
  constructor
  · unfold AuthMiddleware.Handle
    rw [if_neg ha, hv]
  · unfold AuthMiddleware.Middleware
    simp only [if_neg ha, hv]

/-- C9 (as stated) fails: a credential that is no token and a credential whose
token has expired are both refused, and the two responses differ, for `Handle`
in the body and for the go-kratos middleware in the message: each carries the
text of its verification error. -/
theorem rejections_differ :
    (NewAuthMiddleware (str "secret")).Handle jsonDeps 1700003600000000000 (str "x")
        = .rejected (writeErrorResponse StatusUnauthorized
            (str "token is malformed: token contains an invalid number of segments"))
      ∧ (NewAuthMiddleware (str "secret")).Handle jsonDeps 1700003600000000000
          (BearerPrefix ++ signedStringOf jsonDeps
            (issuedClaims 1700000000000000000 1700000000000000000 1700000000000000000 7
              (str "a@b.c") 3600) (str "secret"))
        = .rejected (writeErrorResponse StatusUnauthorized
            (str "token has invalid claims: token is expired"))
      ∧ (writeErrorResponse StatusUnauthorized
            (str "token is malformed: token contains an invalid number of segments")).body
          ≠ (writeErrorResponse StatusUnauthorized
            (str "token has invalid claims: token is expired")).body
      ∧ (NewAuthMiddleware (str "secret")).Middleware jsonDeps 1700003600000000000
          (some ⟨Kind.HTTP, [], fun _ => str "x"⟩)
        = .rejected ⟨401, str "unauthorized",
            str "token is malformed: token contains an invalid number of segments"⟩
      ∧ (NewAuthMiddleware (str "secret")).Middleware jsonDeps 1700003600000000000
          (some ⟨Kind.HTTP, [], fun _ => BearerPrefix ++ signedStringOf jsonDeps
            (issuedClaims 1700000000000000000 1700000000000000000 1700000000000000000 7
              (str "a@b.c") 3600) (str "secret")⟩)
        = .rejected ⟨401, str "unauthorized",
            str "token has invalid claims: token is expired"⟩ := by
  have hx := rejected_of_parseToken (NewAuthMiddleware (str "secret")) jsonDeps
    1700003600000000000 (str "x")
    (newError (str "token contains an invalid number of segments") ErrTokenMalformed [])
    (by decide) (by decide)
  have hexpired : ParseToken jsonDeps 1700003600000000000
      (tokenStringOf (BearerPrefix ++ signedStringOf jsonDeps
        (issuedClaims 1700000000000000000 1700000000000000000 1700000000000000000 7
          (str "a@b.c") 3600) (str "secret"))) (NewAuthMiddleware (str "secret")).secret
      = .error (newError [] ErrTokenInvalidClaims [ErrTokenExpired]) := by
    rw [tokenStringOf_bearer]
    show ParseToken jsonDeps _ _ (str "secret") = _
    rw [parseToken_signedStringOf jsonDeps _ _ _ _ _ jsonDeps_readsBack, if_pos rfl]
    have hv : Validate (issuedClaims 1700000000000000000 1700000000000000000
        1700000000000000000 7 (str "a@b.c") 3600) 1700003600000000000
        = some ErrTokenExpired := by decide
    rw [hv]
  have ht := rejected_of_parseToken (NewAuthMiddleware (str "secret")) jsonDeps
    1700003600000000000 _ _ (by decide) hexpired
  have e1 : (newError (str "token contains an invalid number of segments") ErrTokenMalformed
      []).text = str "token is malformed: token contains an invalid number of segments" := by
    decide
  have e2 : (newError [] ErrTokenInvalidClaims [ErrTokenExpired]).text
      = str "token has invalid claims: token is expired" := by decide
  rw [e1] at hx
  rw [e2] at ht
  exact ⟨hx.1, ht.1, by decide, hx.2, ht.2⟩

/-! ### The middleware on an accepted credential -/

/-- The credential `Bearer ` + token of user 7, issued at second 1700000000 for
an hour with the secret `secret`, is accepted half a second later. -/
theorem validate_issued :
    (NewAuthMiddleware (str "secret")).validateTokenAndGetUserID jsonDeps 1700000000500000000
      (BearerPrefix ++ signedStringOf jsonDeps
        (issuedClaims 1700000000000000000 1700000000000000000 1700000000000000000 7
          (str "a@b.c") 3600) (str "secret")) = .ok 7 := by
  apply validate_of_parseToken _ _ _ _
    (issuedClaims 1700000000000000000 1700000000000000000 1700000000000000000 7
      (str "a@b.c") 3600)
  rw [tokenStringOf_bearer]
  show ParseToken jsonDeps _ _ (str "secret") = _
  rw [parseToken_signedStringOf jsonDeps _ _ _ _ _ jsonDeps_readsBack, if_pos rfl]
  have hv : Validate (issuedClaims 1700000000000000000 1700000000000000000
      1700000000000000000 7 (str "a@b.c") 3600) 1700000000500000000 = Option.none := by decide
  rw [hv]

/-- What `Handle` and the go-kratos middleware do with a credential that
`validateTokenAndGetUserID` accepts. -/
theorem accepted_of_validate (m : AuthMiddleware) (D : Deps) (now : Int) (a operation : Bytes)
    (userID : Nat) (ha : a ≠ []) (h : m.validateTokenAndGetUserID D now a = .ok userID) :
    m.Handle D now a = .next userID
      ∧ m.Middleware D now (some ⟨Kind.HTTP, operation, fun _ => a⟩) = .handler (some userID)
      ∧ m.Middleware D now (some ⟨Kind.GRPC, operation, fun _ => a⟩) = .handler (some userID) := by
  refine ⟨?_, ?_, ?_⟩
  · unfold AuthMiddleware.Handle
    rw [if_neg ha, h]
  · unfold AuthMiddleware.Middleware
    simp only [if_neg ha, h]
  · unfold AuthMiddleware.Middleware
    simp only [if_neg ha, h]

theorem handle_issued :
    (NewAuthMiddleware (str "secret")).Handle jsonDeps 1700000000500000000
      (BearerPrefix ++ signedStringOf jsonDeps
        (issuedClaims 1700000000000000000 1700000000000000000 1700000000000000000 7
          (str "a@b.c") 3600) (str "secret")) = .next 7 :=
  (accepted_of_validate _ _ _ _ [] 7 (by decide) validate_issued).1

theorem middleware_issued :
    (NewAuthMiddleware (str "secret")).Middleware jsonDeps 1700000000500000000
      (some ⟨Kind.GRPC, str "/user.v1.User/Get", fun _ => BearerPrefix ++ signedStringOf jsonDeps
        (issuedClaims 1700000000000000000 1700000000000000000 1700000000000000000 7
          (str "a@b.c") 3600) (str "secret")⟩) = .handler (some 7) :=
  (accepted_of_validate _ _ _ _ (str "/user.v1.User/Get") 7 (by decide) validate_issued).2.2

/-! ### Further properties -/

/-- The go-kratos middleware calls the handler only for a request that has a
transport of kind HTTP or gRPC and a credential whose token `ParseToken`
accepts; the user id it stores is that of the claims. -/
theorem middleware_handler (m : AuthMiddleware) (D : Deps) (now : Int) (tr : Option Transporter)
    (userID : Option Nat) (h : m.Middleware D now tr = .handler userID) :
    ∃ t token claims, tr = some t
      ∧ ((t.kind = Kind.HTTP ∧ token = t.requestHeader (str "Authorization"))
        ∨ (t.kind = Kind.GRPC ∧ token = t.requestHeader (str "authorization")))
      ∧ ParseToken D now (tokenStringOf token) m.secret = .ok claims
      ∧ userID = some claims.UserID :=
  middleware_calls_handler m D now tr userID h

/-- `GenerateToken` never returns an error: it returns the claims it declares,
signed with the secret under HS256. -/
theorem generateToken_returns (D : Deps) (t0 t1 t2 : Int) (userID : Nat) (email : Bytes)
    (expire : Int) (secret : Bytes) :
    GenerateToken D t0 t1 t2 userID email expire secret
      = .ok (signedStringOf D (issuedClaims t0 t1 t2 userID email expire) secret) :=
  generateToken_eq D t0 t1 t2 userID email expire secret

/-- `ParseToken` refuses every token string that starts with `Bearer `. -/
theorem parseToken_refuses_bearer (D : Deps) (now : Int) (t secret : Bytes) :
    ∃ err, ParseToken D now (BearerPrefix ++ t) secret = .error err :=
  parseToken_bearer D now t secret

/-- The function `init` never panics: whatever `net.InterfaceAddrs` returned,
`NewNode` accepts the node id, and the node starts at time 0. -/
theorem init_never_fails (interfaceAddrs : Except GoError (List Addr)) :
    ∃ node, init interfaceAddrs = .ok node ∧ node.time = 0 ∧ node.step = 0
      ∧ node.node = getNodeIDFromIP interfaceAddrs ∧ 0 ≤ node.node ∧ node.node ≤ 1023 := by
  obtain ⟨node, h, hwf, ht, hn, hs⟩ := init_ok interfaceAddrs
  exact ⟨node, h, ht, hs, hn, hwf.2.2.2.1, hwf.2.2.2.2.1⟩

theorem handle_next_witness :
    (NewAuthMiddleware (str "secret")).Handle jsonDeps 1700000000500000000
        (BearerPrefix ++ signedStringOf jsonDeps
          (issuedClaims 1700000000000000000 1700000000000000000 1700000000000000000 7
            (str "a@b.c") 3600) (str "secret")) = .next 7
      ∧ ∃ claims, ParseToken jsonDeps 1700000000500000000
          (tokenStringOf (BearerPrefix ++ signedStringOf jsonDeps
            (issuedClaims 1700000000000000000 1700000000000000000 1700000000000000000 7
              (str "a@b.c") 3600) (str "secret")))
          (NewAuthMiddleware (str "secret")).secret = .ok claims
        ∧ claims.UserID = 7 :=
  ⟨handle_issued, handle_next _ _ _ _ _ handle_issued⟩

theorem middleware_handler_witness :
    (NewAuthMiddleware (str "secret")).Middleware jsonDeps 1700000000500000000
        (some ⟨Kind.GRPC, str "/user.v1.User/Get", fun _ => BearerPrefix ++ signedStringOf jsonDeps
          (issuedClaims 1700000000000000000 1700000000000000000 1700000000000000000 7
            (str "a@b.c") 3600) (str "secret")⟩) = .handler (some 7)
      ∧ ∃ t token claims,
          (some ⟨Kind.GRPC, str "/user.v1.User/Get", fun _ => BearerPrefix
            ++ signedStringOf jsonDeps
              (issuedClaims 1700000000000000000 1700000000000000000 1700000000000000000 7
                (str "a@b.c") 3600) (str "secret")⟩ : Option Transporter) = some t
          ∧ ((t.kind = Kind.HTTP ∧ token = t.requestHeader (str "Authorization"))
            ∨ (t.kind = Kind.GRPC ∧ token = t.requestHeader (str "authorization")))
          ∧ ParseToken jsonDeps 1700000000500000000 (tokenStringOf token)
              (NewAuthMiddleware (str "secret")).secret = .ok claims
          ∧ some 7 = some claims.UserID :=
  ⟨middleware_issued, middleware_handler _ _ _ _ _ middleware_issued⟩

theorem whitelist_middleware_handler_witness :
    (NewAuthMiddlewareWithWhitelist (str "secret") [str "/login"]).Middleware jsonDeps 0
        (some ⟨Kind.HTTP, str "/login", fun _ => []⟩) = .handler Option.none
      ∧ ((some ⟨Kind.HTTP, str "/login", fun _ => []⟩ : Option Transporter) = Option.none
        ∨ (∃ t, (some ⟨Kind.HTTP, str "/login", fun _ => []⟩ : Option Transporter) = some t
            ∧ t.kind = Kind.HTTP
            ∧ (NewAuthMiddlewareWithWhitelist (str "secret") [str "/login"]).whitelist t.operation
              = true)
        ∨ ∃ t token claims,
            (some ⟨Kind.HTTP, str "/login", fun _ => []⟩ : Option Transporter) = some t
            ∧ ((t.kind = Kind.HTTP ∧ token = t.requestHeader (str "Authorization"))
              ∨ (t.kind = Kind.GRPC ∧ token = t.requestHeader (str "authorization")))
            ∧ ParseToken jsonDeps 0 (tokenStringOf token)
                (NewAuthMiddlewareWithWhitelist (str "secret") [str "/login"]).secret = .ok claims
            ∧ (Option.none : Option Nat) = some claims.UserID) :=
  ⟨by decide, whitelist_middleware_handler _ _ _ _ _ (by decide)⟩

/-- A gRPC request for a whitelisted operation is not let through without a
credential: the whitelist applies to HTTP requests only. -/
theorem whitelist_grpc_rejected :
    (NewAuthMiddlewareWithWhitelist (str "secret") [str "/login"]).Middleware jsonDeps 0
        (some ⟨Kind.GRPC, str "/login", fun _ => []⟩)
      = .rejected ⟨401, str "unauthorized", str "token is empty"⟩ := by
  decide

/-! ### The reference JSON layer: numbers -/

/-! ### The reference JSON layer reads back what it writes -/

theorem itoa_eq (n : Nat) :
    Itoa n = (Nat.toDigits 10 n).map (fun c => (Fin.ofNat c.toNat : Byte)) := rfl

theorem digitChar_byte (d : Nat) (h : d < 10) :
    ((Fin.ofNat (Nat.digitChar d).toNat : Byte)).val = 48 + d := by
  interval_cases d <;> rfl

theorem readDigits_digit (acc d : Nat) (h : d < 10) (s : Bytes) :
    readDigits acc ((Fin.ofNat (Nat.digitChar d).toNat : Byte) :: s)
      = readDigits (acc * 10 + d) s := by
  have hb := digitChar_byte d h
  generalize (Fin.ofNat (Nat.digitChar d).toNat : Byte) = b at hb
  have hpos : 48 ≤ b.val ∧ b.val ≤ 57 := by omega
  show (if 48 ≤ b.val ∧ b.val ≤ 57 then readDigits (acc * 10 + (b.val - 48)) s
    else (acc, b :: s)) = _
  rw [if_pos hpos, hb]
  have e : acc * 10 + (48 + d - 48) = acc * 10 + d := by omega
  rw [e]

theorem readDigits_toDigitsCore (fuel : Nat) (rest : Bytes) :
    ∀ n ds, n < fuel → ∃ k, ∀ acc,
      readDigits acc ((Nat.toDigitsCore 10 fuel n ds).map (fun c => (Fin.ofNat c.toNat : Byte))
          ++ rest)
        = readDigits (acc * 10 ^ k + n) (ds.map (fun c => (Fin.ofNat c.toNat : Byte)) ++ rest) := by
  induction fuel with
  | zero => intro n ds h; omega
  | succ fuel ih =>
    intro n ds h
    unfold Nat.toDigitsCore
    simp only
    by_cases h0 : n / 10 = 0
    · rw [if_pos h0]
      refine ⟨1, fun acc => ?_⟩
      simp only [List.map_cons, List.cons_append]
      rw [readDigits_digit _ _ (Nat.mod_lt _ (by decide))]
      congr 1
      omega
    · rw [if_neg h0]
      obtain ⟨k, hk⟩ := ih (n / 10) (Nat.digitChar (n % 10) :: ds) (by omega)
      refine ⟨k + 1, fun acc => ?_⟩
      rw [hk acc]
      simp only [List.map_cons, List.cons_append]
      rw [readDigits_digit _ _ (Nat.mod_lt _ (by decide))]
      congr 1
      rw [pow_succ]
      have := Nat.div_add_mod n 10
      nlinarith [this]

/-- A number written by `Itoa` is read back by `readDigits`, up to the first
byte that is no digit. -/
theorem readDigits_itoa (n : Nat) (c : Byte) (rest : Bytes) (hc : ¬ (48 ≤ c.val ∧ c.val ≤ 57)) :
    readDigits 0 (Itoa n ++ c :: rest) = (n, c :: rest) := by
  rw [itoa_eq]
  unfold Nat.toDigits
  obtain ⟨k, hk⟩ := readDigits_toDigitsCore (n + 1) (c :: rest) n [] (by omega)
  rw [hk 0]
  simp only [zero_mul, zero_add, List.map_nil, List.nil_append]
  show (if 48 ≤ c.val ∧ c.val ≤ 57 then readDigits (n * 10 + (c.val - 48)) rest
    else (n, c :: rest)) = _
  rw [if_neg hc]

theorem toDigitsCore_head (fuel : Nat) :
    ∀ n ds, 0 < fuel → ∃ d s, Nat.toDigitsCore 10 fuel n ds = Nat.digitChar d :: s ∧ d < 10 := by
  induction fuel with
  | zero => intro n ds h; omega
  | succ fuel ih =>
    intro n ds _
    unfold Nat.toDigitsCore
    simp only
    by_cases h0 : n / 10 = 0
    · rw [if_pos h0]
      exact ⟨n % 10, ds, rfl, Nat.mod_lt _ (by decide)⟩
    · rw [if_neg h0]
      cases fuel with
      | zero => exact ⟨n % 10, ds, rfl, Nat.mod_lt _ (by decide)⟩
      | succ fuel => exact ih _ _ (by omega)

/-- A number written by `Itoa` starts with a digit. -/
theorem itoa_head (n : Nat) : ∃ d s, Itoa n = d :: s ∧ 48 ≤ d.val ∧ d.val ≤ 57 := by
  obtain ⟨d, s, h, hd⟩ := toDigitsCore_head (n + 1) n [] (by omega)
  refine ⟨Fin.ofNat (Nat.digitChar d).toNat, s.map (fun c => (Fin.ofNat c.toNat : Byte)), ?_, ?_⟩
  · rw [itoa_eq]
    unfold Nat.toDigits
    rw [h]
    rfl
  · have := digitChar_byte d hd
    omega

/-- The reference layer reads a number it wrote. -/
theorem readNat_itoa (n : Nat) (c : Byte) (rest : Bytes) (hc : ¬ (48 ≤ c.val ∧ c.val ≤ 57)) :
    readNat (Itoa n ++ c :: rest) = some (n, c :: rest) := by
  obtain ⟨d, s, h, hd⟩ := itoa_head n
  have hr := readDigits_itoa n c rest hc
  rw [h] at hr ⊢
  show (if 48 ≤ d.val ∧ d.val ≤ 57 then some (readDigits 0 (d :: (s ++ c :: rest)))
    else Option.none) = _
  rw [if_pos hd]
  exact congrArg some hr

/-- The reference layer reads an integer it wrote. -/
theorem readInt_formatInt (i : Int) (c : Byte) (rest : Bytes)
    (hc : ¬ (48 ≤ c.val ∧ c.val ≤ 57)) :
    readInt (FormatInt i ++ c :: rest) = some (i, c :: rest) := by
  unfold FormatInt
  by_cases hi : i < 0
  · rw [if_pos hi]
    show (readNat (Itoa (-i).toNat ++ c :: rest)).map (fun r => (-(r.1 : Int), r.2)) = _
    rw [readNat_itoa _ _ _ hc]
    simp only [Option.map_some', Option.some.injEq, Prod.mk.injEq, and_true]
    omega
  · rw [if_neg hi]
    obtain ⟨d, s, h, hd⟩ := itoa_head i.toNat
    have hr := readNat_itoa i.toNat c rest hc
    rw [h] at hr ⊢
    have hr' : readNat (d :: (s ++ c :: rest)) = some (i.toNat, c :: rest) := hr
    have hd' : ¬ d.val = 45 := by omega
    show (if d.val = 45 then (readNat (s ++ c :: rest)).map (fun r => (-(r.1 : Int), r.2))
      else (readNat (d :: (s ++ c :: rest))).map (fun r => ((r.1 : Int), r.2))) = _
    rw [if_neg hd', hr']
    simp only [Option.map_some', Option.some.injEq, Prod.mk.injEq, and_true]
    omega

/-! ### The reference JSON layer: plain strings and dates -/

theorem escapeASCII_safe (b : Byte) (h : htmlSafe b = true) : escapeASCII b = [b] := by
  unfold escapeASCII
  rw [if_pos h]

theorem htmlSafe_lt (b : Byte) (h : htmlSafe b = true) : b.val < 0x80 := by
  unfold htmlSafe at h
  simp only [decide_eq_true_eq] at h
  omega

theorem escapeLoop_safe (s : Bytes) (h : ∀ b ∈ s, htmlSafe b = true) (fuel : Nat)
    (hf : s.length ≤ fuel) : escapeLoop fuel s = s := by
  induction s generalizing fuel with
  | nil => cases fuel <;> rfl
  | cons b s ih =>
    cases fuel with
    | zero => simp at hf
    | succ fuel =>
      have hb := h b (List.mem_cons_self _ _)
      unfold escapeLoop
      rw [if_pos (htmlSafe_lt b hb), escapeASCII_safe b hb,
        ih (fun c hc => h c (List.mem_cons_of_mem _ hc)) fuel (by simpa using hf)]
      rfl

/-- A text of bytes that `encoding/json` leaves as they are is written between
two quotes. -/
theorem marshalString_safe (s : Bytes) (h : ∀ b ∈ s, htmlSafe b = true) :
    marshalString s = 34 :: (s ++ [34]) := by
  unfold marshalString escapeString
  rw [escapeLoop_safe s h _ (le_refl _)]
  rfl

theorem readString_safe (s rest : Bytes) (h : ∀ b ∈ s, htmlSafe b = true) :
    readString (s ++ 34 :: rest) = some (s, rest) := by
  induction s with
  | nil =>
    rw [List.nil_append, readString.eq_def]
    rfl
  | cons b s ih =>
    have hb := h b (List.mem_cons_self _ _)
    unfold htmlSafe at hb
    simp only [decide_eq_true_eq] at hb
    have h1 : ¬ b.val = 34 := by omega
    have h2 : ¬ b.val = 92 := by omega
    have h3 : ¬ b.val < 0x20 := by omega
    rw [List.cons_append, readString.eq_def]
    simp only [h1, h2, h3, if_false, ih (fun c hc => h c (List.mem_cons_of_mem _ hc))]

/-- The reference layer reads a string it wrote, when the string is of bytes
that `encoding/json` leaves as they are. -/
theorem readQuoted_marshalString (s rest : Bytes) (h : ∀ b ∈ s, htmlSafe b = true) :
    readQuoted (marshalString s ++ rest) = some (s, rest) := by
  rw [marshalString_safe s h]
  show readString ((s ++ [34]) ++ rest) = _
  rw [List.append_assoc]
  exact readString_safe s rest h

theorem newNumericDate_idem (t : Int) :
    NewNumericDate (NewNumericDate t / Second * Second) = NewNumericDate t := by
  unfold NewNumericDate truncateSecond Second
  omega

theorem float64OfNat_small (n : Nat) (h : n < 2 ^ 53) : float64OfNat n = n := by
  unfold float64OfNat
  rw [if_pos h]

/-- The seconds of a date, read through `float64` and `int64`, are the seconds
of the date when they are fewer than `2 ^ 53`. -/
theorem float64_seconds (n : Int) (h : -2 ^ 53 < n ∧ n < 2 ^ 53) :
    (if n < 0 then -(float64OfNat (-n).toNat : Int) else (float64OfNat n.toNat : Int)) = n := by
  by_cases hn : n < 0
  · rw [if_pos hn, float64OfNat_small _ (by omega)]
    omega
  · rw [if_neg hn, float64OfNat_small _ (by omega)]
    omega

/-- The reference layer reads a date it wrote, when the date is within `2 ^ 53`
seconds of the epoch. -/
theorem readNumericDate_marshal (t : Int) (c : Byte) (rest : Bytes)
    (hc : ¬ (48 ≤ c.val ∧ c.val ≤ 57))
    (ht : -2 ^ 53 < NewNumericDate t / Second ∧ NewNumericDate t / Second < 2 ^ 53) :
    readNumericDate (marshalNumericDate (NewNumericDate t) ++ c :: rest)
      = some (NewNumericDate t, c :: rest) := by
  unfold readNumericDate marshalNumericDate
  rw [readInt_formatInt _ _ _ hc]
  simp only [Option.some_bind, float64_seconds _ ht, newNumericDate_idem]
  rw [if_pos (by omega)]

/-! ### The reference JSON layer: escapes -/

theorem hexVal_hexDigit : ∀ v : Fin 16, hexVal (hexDigit v.val) = some v.val := by decide

theorem readString_cons_raw (b : Byte) (tail : Bytes)
    (h1 : ¬ b.val = 34) (h2 : ¬ b.val = 92) (h3 : ¬ b.val < 0x20) :
    readString (b :: tail)
      = match readString tail with
        | some (d, rest) => some (b :: d, rest)
        | Option.none => Option.none := by
  rw [readString.eq_def]
  simp only [h1, h2, h3, if_false]

theorem readString_escape (e b : Byte) (tail : Bytes) (he : ¬ e.val = 117)
    (hu : unescape e = some b) :
    readString (92 :: e :: tail)
      = match readString tail with
        | some (d, rest) => some (b :: d, rest)
        | Option.none => Option.none := by
  rw [readString.eq_def]
  have h92 : ¬ (92 : Byte).val = 34 := by decide
  have h92' : (92 : Byte).val = 92 := by decide
  simp only [h92, h92', he, hu, if_false, if_true]
  cases readString tail with
  | none => rfl
  | some p => rfl

theorem readString_unicode (h0 h1 h2 h3 : Byte) (v0 v1 v2 v3 : Nat) (tail : Bytes)
    (e0 : hexVal h0 = some v0) (e1 : hexVal h1 = some v1) (e2 : hexVal h2 = some v2)
    (e3 : hexVal h3 = some v3) :
    readString (92 :: 117 :: h0 :: h1 :: h2 :: h3 :: tail)
      = match readString tail with
        | some (d, rest) => some (encodeRune (v0 * 4096 + v1 * 256 + v2 * 16 + v3) ++ d, rest)
        | Option.none => Option.none := by
  rw [readString.eq_def]
  have h92 : ¬ (92 : Byte).val = 34 := by decide
  have h92' : (92 : Byte).val = 92 := by decide
  have h117 : (117 : Byte).val = 117 := by decide
  simp only [h92, h92', h117, e0, e1, e2, e3, if_false, if_true]
  cases readString tail with
  | none => rfl
  | some p => rfl

theorem byte_eq_of_val (b : Byte) (n : Nat) (hn : n < 256) (h : b.val = n) :
    b = (Fin.ofNat n : Byte) := by
  apply Fin.ext
  rw [h]
  simp [Fin.ofNat, Nat.mod_eq_of_lt hn]

/-- What the reference layer reads from the escape of an ASCII byte. -/
theorem readString_escapeASCII (b : Byte) (hb : b.val < 0x80) (tail d rest : Bytes)
    (ht : readString tail = some (d, rest)) :
    readString (escapeASCII b ++ tail) = some (b :: d, rest) := by
  unfold escapeASCII
  by_cases hs : htmlSafe b = true
  · rw [if_pos hs]
    unfold htmlSafe at hs
    simp only [decide_eq_true_eq] at hs
    rw [List.singleton_append, readString_cons_raw b tail (by omega) (by omega) (by omega), ht]
  rw [if_neg hs]
  by_cases hq : b.val = 92 ∨ b.val = 34
  · rw [if_pos hq]
    have hu : unescape b = some b := by
      unfold unescape
      rw [if_pos (by omega)]
    show readString (92 :: b :: tail) = _
    rw [readString_escape b b tail (by omega) hu, ht]
  rw [if_neg hq]
  by_cases h8 : b.val = 8
  · rw [if_pos h8]
    have : b = 8 := byte_eq_of_val b 8 (by decide) h8
    subst this
    show readString (92 :: 98 :: tail) = _
    rw [readString_escape 98 8 tail (by decide) (by decide), ht]
  rw [if_neg h8]
  by_cases h12 : b.val = 12
  · rw [if_pos h12]
    have : b = 12 := byte_eq_of_val b 12 (by decide) h12
    subst this
    show readString (92 :: 102 :: tail) = _
    rw [readString_escape 102 12 tail (by decide) (by decide), ht]
  rw [if_neg h12]
  by_cases h10 : b.val = 10
  · rw [if_pos h10]
    have : b = 10 := byte_eq_of_val b 10 (by decide) h10
    subst this
    show readString (92 :: 110 :: tail) = _
    rw [readString_escape 110 10 tail (by decide) (by decide), ht]
  rw [if_neg h10]
  by_cases h13 : b.val = 13
  · rw [if_pos h13]
    have : b = 13 := byte_eq_of_val b 13 (by decide) h13
    subst this
    show readString (92 :: 114 :: tail) = _
    rw [readString_escape 114 13 tail (by decide) (by decide), ht]
  rw [if_neg h13]
  by_cases h9 : b.val = 9
  · rw [if_pos h9]
    have : b = 9 := byte_eq_of_val b 9 (by decide) h9
    subst this
    show readString (92 :: 116 :: tail) = _
    rw [readString_escape 116 9 tail (by decide) (by decide), ht]
  rw [if_neg h9]
  show readString (92 :: 117 :: 48 :: 48 :: hexDigit (b.val / 16) :: hexDigit (b.val % 16) :: tail)
    = _
  have e1 := hexVal_hexDigit ⟨b.val / 16, by omega⟩
  have e2 := hexVal_hexDigit ⟨b.val % 16, by omega⟩
  simp only at e1 e2
  rw [readString_unicode 48 48 _ _ 0 0 _ _ tail (by decide) (by decide) e1 e2, ht]
  simp only
  have hv : 0 * 4096 + 0 * 256 + b.val / 16 * 16 + b.val % 16 = b.val := by omega
  rw [hv]
  unfold encodeRune
  rw [if_pos hb, ← byte_eq_of_val b b.val (by omega) rfl]
  rfl

/-- The reference layer copies bytes of `0x80` or more. -/
theorem readString_raw (p : Bytes) (hp : ∀ b ∈ p, 0x80 ≤ b.val) (tail d rest : Bytes)
    (ht : readString tail = some (d, rest)) :
    readString (p ++ tail) = some (p ++ d, rest) := by
  induction p with
  | nil => exact ht
  | cons b p ih =>
    have hb := hp b (List.mem_cons_self _ _)
    rw [List.cons_append, readString_cons_raw b _ (by omega) (by omega) (by omega),
      ih (fun c hc => hp c (List.mem_cons_of_mem _ hc))]
    rfl

/-! ### The reference JSON layer: valid UTF-8 -/

theorem isCont_ge (b : Byte) (h : isCont b = true) : 0x80 ≤ b.val := by
  unfold isCont at h
  simp only [decide_eq_true_eq] at h
  omega

theorem lead3_ge (b0 b1 : Byte) (h : lead3 b0 b1 = true) : 0x80 ≤ b0.val ∧ 0x80 ≤ b1.val := by
  unfold lead3 at h
  simp only [decide_eq_true_eq] at h
  omega

theorem lead4_ge (b0 b1 : Byte) (h : lead4 b0 b1 = true) : 0x80 ≤ b0.val ∧ 0x80 ≤ b1.val := by
  unfold lead4 at h
  simp only [decide_eq_true_eq] at h
  omega

theorem runeSize_two (b0 b1 : Byte) (rest : Bytes)
    (h : 0xC2 ≤ b0.val ∧ b0.val ≤ 0xDF ∧ isCont b1 = true) :
    runeSize (b0 :: b1 :: rest) = 2 := by
  show (if 0xC2 ≤ b0.val ∧ b0.val ≤ 0xDF ∧ isCont b1 = true then 2 else _) = 2
  rw [if_pos h]

theorem runeSize_short (b0 b1 : Byte)
    (h : ¬ (0xC2 ≤ b0.val ∧ b0.val ≤ 0xDF ∧ isCont b1 = true)) :
    runeSize [b0, b1] = 0 := by
  show (if 0xC2 ≤ b0.val ∧ b0.val ≤ 0xDF ∧ isCont b1 = true then 2 else _) = 0
  rw [if_neg h]

theorem runeSize_three (b0 b1 b2 : Byte) (rest : Bytes)
    (h : ¬ (0xC2 ≤ b0.val ∧ b0.val ≤ 0xDF ∧ isCont b1 = true))
    (h3 : lead3 b0 b1 = true ∧ isCont b2 = true) :
    runeSize (b0 :: b1 :: b2 :: rest) = 3 := by
  show (if 0xC2 ≤ b0.val ∧ b0.val ≤ 0xDF ∧ isCont b1 = true then 2 else
    if lead3 b0 b1 = true ∧ isCont b2 = true then 3 else _) = 3
  rw [if_neg h, if_pos h3]

theorem runeSize_short3 (b0 b1 b2 : Byte)
    (h : ¬ (0xC2 ≤ b0.val ∧ b0.val ≤ 0xDF ∧ isCont b1 = true))
    (h3 : ¬ (lead3 b0 b1 = true ∧ isCont b2 = true)) :
    runeSize [b0, b1, b2] = 0 := by
  show (if 0xC2 ≤ b0.val ∧ b0.val ≤ 0xDF ∧ isCont b1 = true then 2 else
    if lead3 b0 b1 = true ∧ isCont b2 = true then 3 else _) = 0
  rw [if_neg h, if_neg h3]

theorem runeSize_four (b0 b1 b2 b3 : Byte) (rest : Bytes)
    (h : ¬ (0xC2 ≤ b0.val ∧ b0.val ≤ 0xDF ∧ isCont b1 = true))
    (h3 : ¬ (lead3 b0 b1 = true ∧ isCont b2 = true)) :
    runeSize (b0 :: b1 :: b2 :: b3 :: rest)
      = if lead4 b0 b1 = true ∧ isCont b2 = true ∧ isCont b3 = true then 4 else 0 := by
  show (if 0xC2 ≤ b0.val ∧ b0.val ≤ 0xDF ∧ isCont b1 = true then 2 else
    if lead3 b0 b1 = true ∧ isCont b2 = true then 3 else _) = _
  rw [if_neg h, if_neg h3]

/-- A well-formed sequence at the head of a text lies within the text, and its
bytes are 0x80 or more. -/
theorem runeSize_spec (s : Bytes) (h : runeSize s ≠ 0) :
    runeSize s ≤ s.length ∧ ∀ b ∈ s.take (runeSize s), 0x80 ≤ b.val := by
  match s with
  | [] => exact absurd rfl h
  | [_] => exact absurd rfl h
  | b0 :: b1 :: rest =>
    by_cases h2 : 0xC2 ≤ b0.val ∧ b0.val ≤ 0xDF ∧ isCont b1 = true
    · rw [runeSize_two b0 b1 rest h2]
      refine ⟨by simp, ?_⟩
      intro b hb
      simp only [List.take_succ_cons, List.take_zero, List.mem_cons, List.not_mem_nil,
        or_false] at hb
      rcases hb with rfl | rfl
      · omega
      · exact isCont_ge _ h2.2.2
    · match rest with
      | [] => exact absurd (runeSize_short b0 b1 h2) h
      | b2 :: rest2 =>
        by_cases h3 : lead3 b0 b1 = true ∧ isCont b2 = true
        · rw [runeSize_three b0 b1 b2 rest2 h2 h3]
          refine ⟨by simp, ?_⟩
          intro b hb
          simp only [List.take_succ_cons, List.take_zero, List.mem_cons, List.not_mem_nil,
            or_false] at hb
          rcases hb with rfl | rfl | rfl
          · exact (lead3_ge _ _ h3.1).1
          · exact (lead3_ge _ _ h3.1).2
          · exact isCont_ge _ h3.2
        · match rest2 with
          | [] => exact absurd (runeSize_short3 b0 b1 b2 h2 h3) h
          | b3 :: rest3 =>
            rw [runeSize_four b0 b1 b2 b3 rest3 h2 h3] at h ⊢
            by_cases h4 : lead4 b0 b1 = true ∧ isCont b2 = true ∧ isCont b3 = true
            · rw [if_pos h4]
              refine ⟨by simp, ?_⟩
              intro b hb
              simp only [List.take_succ_cons, List.take_zero, List.mem_cons, List.not_mem_nil,
                or_false] at hb
              rcases hb with rfl | rfl | rfl | rfl
              · exact (lead4_ge _ _ h4.1).1
              · exact (lead4_ge _ _ h4.1).2
              · exact isCont_ge _ h4.2.1
              · exact isCont_ge _ h4.2.2
            · rw [if_neg h4] at h
              exact absurd rfl h

theorem runeSize_lineSep (s : Bytes) (c : Byte) (hc : c = 0xA8 ∨ c = 0xA9)
    (h : s.take 3 = [0xE2, 0x80, c]) : runeSize s = 3 := by
  match s with
  | [] => simp at h
  | [_] => simp at h
  | [_, _] => simp at h
  | b0 :: b1 :: b2 :: rest =>
    simp only [List.take_succ_cons, List.take_zero, List.cons.injEq, and_true] at h
    obtain ⟨rfl, rfl, rfl⟩ := h
    rcases hc with rfl | rfl <;> rfl

/-- The reference layer reads a string it wrote, when the string is valid
UTF-8. -/
theorem readString_escapeLoop (rest : Bytes) (fuel : Nat) :
    ∀ s : Bytes, s.length ≤ fuel → validLoop fuel s = true →
      readString (escapeLoop fuel s ++ 34 :: rest) = some (s, rest) := by
  have hend : readString (34 :: rest) = some ([], rest) := by
    rw [readString.eq_def]
    rfl
  induction fuel with
  | zero =>
    intro s hs _
    have : s = [] := List.length_eq_zero.1 (by omega)
    subst this
    exact hend
  | succ fuel ih =>
    intro s hs hv
    match s with
    | [] => exact hend
    | b0 :: rest0 =>
      have hlen : rest0.length ≤ fuel := by simpa using hs
      unfold validLoop at hv
      unfold escapeLoop
      by_cases hb : b0.val < 0x80
      · rw [if_pos hb] at hv ⊢
        rw [List.append_assoc]
        exact readString_escapeASCII b0 hb _ _ _ (ih rest0 hlen hv)
      · rw [if_neg hb] at hv ⊢
        by_cases hz : runeSize (b0 :: rest0) = 0
        · rw [if_pos hz] at hv
          cases hv
        · rw [if_neg hz] at hv ⊢
          obtain ⟨hle, hraw⟩ := runeSize_spec (b0 :: rest0) hz
          have hdrop : rest0.drop (runeSize (b0 :: rest0) - 1)
              = (b0 :: rest0).drop (runeSize (b0 :: rest0)) := by
            obtain ⟨n, hn⟩ : ∃ n, runeSize (b0 :: rest0) = n + 1 :=
              ⟨runeSize (b0 :: rest0) - 1, by omega⟩
            rw [hn]
            rfl
          have hrec := ih _ (by rw [List.length_drop]; omega) hv
          by_cases h8 : (b0 :: rest0).take 3 = [0xE2, 0x80, 0xA8]
          · rw [if_pos h8]
            have h3 := runeSize_lineSep _ 0xA8 (Or.inl rfl) h8
            rw [h3] at hrec
            show readString (92 :: 117 :: 50 :: 48 :: 50 :: 56 ::
              (escapeLoop fuel (rest0.drop 2) ++ 34 :: rest)) = _
            rw [readString_unicode 50 48 50 56 2 0 2 8 _ (by decide) (by decide) (by decide)
              (by decide), hrec]
            simp only
            have e : encodeRune (2 * 4096 + 0 * 256 + 2 * 16 + 8) = [0xE2, 0x80, 0xA8] := by
              decide
            rw [e, ← h8]
            exact congrArg (fun x => some (x, rest)) (List.take_append_drop 3 (b0 :: rest0))
          · rw [if_neg h8]
            by_cases h9 : (b0 :: rest0).take 3 = [0xE2, 0x80, 0xA9]
            · rw [if_pos h9]
              have h3 := runeSize_lineSep _ 0xA9 (Or.inr rfl) h9
              rw [h3] at hrec
              show readString (92 :: 117 :: 50 :: 48 :: 50 :: 57 ::
                (escapeLoop fuel (rest0.drop 2) ++ 34 :: rest)) = _
              rw [readString_unicode 50 48 50 57 2 0 2 9 _ (by decide) (by decide) (by decide)
                (by decide), hrec]
              simp only
              have e : encodeRune (2 * 4096 + 0 * 256 + 2 * 16 + 9) = [0xE2, 0x80, 0xA9] := by
                decide
              rw [e, ← h9]
              exact congrArg (fun x => some (x, rest)) (List.take_append_drop 3 (b0 :: rest0))
            · rw [if_neg h9, List.append_assoc, readString_raw _ hraw _ _ _ hrec, hdrop,
                List.take_append_drop]

/-- The reference layer reads a string it wrote, when the string is valid
UTF-8. -/
theorem readQuoted_marshalString_valid (s rest : Bytes) (h : ValidString s = true) :
    readQuoted (marshalString s ++ rest) = some (s, rest) := by
  show readString ((escapeString s ++ [34]) ++ rest) = _
  rw [List.append_assoc]
  exact readString_escapeLoop rest s.length s (le_refl _) h

/-! ### The reference JSON layer: the claims `GenerateToken` declares -/

theorem marshalString_append_ne_nil (s rest : Bytes) : marshalString s ++ rest ≠ [] := by
  show 34 :: _ ≠ []
  simp

theorem readMembers_more {α : Type} (member : Bytes → Bytes → α → Option (α × Bytes))
    (fuel : Nat) (key s : Bytes) (a a' : α) (rest : Bytes)
    (hkey : ∀ b ∈ key, htmlSafe b = true)
    (hm : member key s a = some (a', 44 :: rest)) (hrest : rest ≠ []) :
    readMembers member (fuel + 1) (marshalString key ++ 58 :: s) a
      = readMembers member fuel rest a' := by
  rw [readMembers, readQuoted_marshalString key _ hkey]
  simp only [hm, hrest, if_false]
  rfl

theorem readMembers_last {α : Type} (member : Bytes → Bytes → α → Option (α × Bytes))
    (fuel : Nat) (key s : Bytes) (a a' : α)
    (hkey : ∀ b ∈ key, htmlSafe b = true)
    (hm : member key s a = some (a', [125])) :
    readMembers member (fuel + 1) (marshalString key ++ 58 :: s) a = some a' := by
  rw [readMembers, readQuoted_marshalString key _ hkey]
  simp only [hm]
  rfl

theorem readClaim_iss (s : Bytes) (c : CustomClaims) :
    readClaim (str "iss") s c = (readQuoted s).map (fun r => ({ c with Issuer := r.1 }, r.2)) := by
  unfold readClaim
  rw [if_neg (by decide), if_neg (by decide), if_pos rfl]

theorem readClaim_exp (s : Bytes) (c : CustomClaims) :
    readClaim (str "exp") s c
      = (readNumericDate s).map (fun r => ({ c with ExpiresAt := some r.1 }, r.2)) := by
  unfold readClaim
  rw [if_neg (by decide), if_neg (by decide), if_neg (by decide), if_neg (by decide),
    if_neg (by decide), if_pos rfl]

theorem readClaim_nbf (s : Bytes) (c : CustomClaims) :
    readClaim (str "nbf") s c
      = (readNumericDate s).map (fun r => ({ c with NotBefore := some r.1 }, r.2)) := by
  unfold readClaim
  rw [if_neg (by decide), if_neg (by decide), if_neg (by decide), if_neg (by decide),
    if_neg (by decide), if_neg (by decide), if_pos rfl]

theorem readClaim_iat (s : Bytes) (c : CustomClaims) :
    readClaim (str "iat") s c
      = (readNumericDate s).map (fun r => ({ c with IssuedAt := some r.1 }, r.2)) := by
  unfold readClaim
  rw [if_neg (by decide), if_neg (by decide), if_neg (by decide), if_neg (by decide),
    if_neg (by decide), if_neg (by decide), if_neg (by decide), if_pos rfl]

/-- The text the reference layer writes for the claims `GenerateToken`
declares, member by member. -/
theorem marshalClaims_issued (t0 t1 t2 : Int) (userID : Nat) (email : Bytes) (expire : Int) :
    marshalClaims (issuedClaims t0 t1 t2 userID email expire)
      = 123 :: (marshalString (str "user_id") ++ 58 :: (Itoa userID
        ++ 44 :: (marshalString (str "email") ++ 58 :: (marshalString email
        ++ 44 :: (marshalString (str "iss") ++ 58 :: (marshalString (str "sport-user")
        ++ 44 :: (marshalString (str "exp") ++ 58 ::
          (marshalNumericDate (NewNumericDate (t0 + secondsDuration expire))
        ++ 44 :: (marshalString (str "nbf") ++ 58 :: (marshalNumericDate (NewNumericDate t2)
        ++ 44 :: (marshalString (str "iat") ++ 58 :: (marshalNumericDate (NewNumericDate t1)
        ++ [125])))))))))))) := by
  have h1 : str "\x7b\"user_id\":" = 123 :: (marshalString (str "user_id") ++ [58]) := by decide
  have h2 : str ",\"email\":" = 44 :: (marshalString (str "email") ++ [58]) := by decide
  have h3 : stringMember (str "iss") (str "sport-user")
      = 44 :: (marshalString (str "iss") ++ 58 :: marshalString (str "sport-user")) := by decide
  have h4 : ∀ name : Bytes, stringMember name [] = [] := fun _ => rfl
  have h5 : ∀ (name : Bytes) (t : Int), dateMember name (some t)
      = 44 :: (marshalString name ++ 58 :: marshalNumericDate t) := by
    intro name t
    show str "," ++ marshalString name ++ str ":" ++ marshalNumericDate t = _
    have e1 : str "," = [44] := by decide
    have e2 : str ":" = [58] := by decide
    rw [e1, e2]
    simp
  have h6 : str "\x7d" = [125] := by decide
  unfold marshalClaims issuedClaims
  simp only [h1, h2, h3, h4, h5, h6, if_true, List.append_assoc, List.cons_append,
    List.nil_append, List.append_nil, List.singleton_append]

theorem wrapInt64_range (x : Int) : -2 ^ 63 ≤ wrapInt64 x ∧ wrapInt64 x < 2 ^ 63 := by
  unfold wrapInt64
  omega

/-- A date within `2 ^ 64` nanoseconds of the epoch is within `2 ^ 53` seconds
of it. -/
theorem seconds_range (t : Int) (h : -2 ^ 64 ≤ t ∧ t < 2 ^ 64) :
    -2 ^ 53 < NewNumericDate t / Second ∧ NewNumericDate t / Second < 2 ^ 53 := by
  unfold NewNumericDate truncateSecond Second
  omega

set_option maxRecDepth 100000 in
/-- The reference layer reads the claims `GenerateToken` declares back as they
were written, for every user id of `uint64`, every ttl, clock readings in the
range of `int64` nanoseconds, and every email that is valid UTF-8. -/
theorem unmarshalClaims_marshalClaims_issued (t0 t1 t2 : Int) (userID : Nat) (email : Bytes)
    (expire : Int) (huser : userID < 2 ^ 64) (hemail : ValidString email = true)
    (h0 : -2 ^ 63 ≤ t0 ∧ t0 < 2 ^ 63) (h1 : -2 ^ 63 ≤ t1 ∧ t1 < 2 ^ 63)
    (h2 : -2 ^ 63 ≤ t2 ∧ t2 < 2 ^ 63) :
    unmarshalClaims (marshalClaims (issuedClaims t0 t1 t2 userID email expire))
      = .ok (issuedClaims t0 t1 t2 userID email expire) := by
  have hcomma : ¬ (48 ≤ (44 : Byte).val ∧ (44 : Byte).val ≤ 57) := by decide
  have hbrace : ¬ (48 ≤ (125 : Byte).val ∧ (125 : Byte).val ≤ 57) := by decide
  have hq : ∀ s : Bytes, marshalString s = 34 :: (escapeString s ++ [34]) := fun _ => rfl
  have hw := wrapInt64_range (expire * Second)
  rw [marshalClaims_issued]
  unfold unmarshalClaims readObject
  simp only
  rw [if_pos (by decide), if_neg (by rw [hq]; simp)]
  generalize hL : List.length _ = L
  have hL6 : 6 ≤ L := by
    rw [← hL]
    simp only [List.length_append, List.length_cons, hq]
    omega
  obtain ⟨fuel, rfl⟩ : ∃ fuel, L = fuel + 6 := ⟨L - 6, by omega⟩
  clear hL hL6
  rw [readMembers_more readClaim _ (str "user_id") _ _ _ _ (by decide)
    (by
      show (readNat _).bind _ = _
      rw [readNat_itoa _ _ _ hcomma]
      simp only [Option.some_bind]
      rw [if_pos huser]) (marshalString_append_ne_nil _ _)]
  rw [readMembers_more readClaim _ (str "email") _ _ _ _ (by decide)
    (by
      show (readQuoted _).map _ = _
      rw [readQuoted_marshalString_valid _ _ hemail]
      rfl) (marshalString_append_ne_nil _ _)]
  rw [readMembers_more readClaim _ (str "iss") _ _ _ _ (by decide)
    (by
      rw [readClaim_iss, readQuoted_marshalString _ _ (by decide)]
      rfl) (marshalString_append_ne_nil _ _)]
  rw [readMembers_more readClaim _ (str "exp") _ _ _ _ (by decide)
    (by
      rw [readClaim_exp, readNumericDate_marshal _ _ _ hcomma
        (seconds_range _ (by unfold secondsDuration; omega))]
      rfl) (marshalString_append_ne_nil _ _)]
  rw [readMembers_more readClaim _ (str "nbf") _ _ _ _ (by decide)
    (by
      rw [readClaim_nbf, readNumericDate_marshal _ _ _ hcomma (seconds_range _ (by omega))]
      rfl) (marshalString_append_ne_nil _ _)]
  rw [readMembers_last readClaim _ (str "iat") _ _ _ (by decide)
    (by
      rw [readClaim_iat, readNumericDate_marshal _ _ _ hbrace (seconds_range _ (by omega))]
      rfl)]
  rfl

theorem jsonDeps_unmarshalClaims : jsonDeps.unmarshalClaims = unmarshalClaims := rfl

theorem jsonDeps_marshalClaims : jsonDeps.marshalClaims = marshalClaims := rfl

set_option maxRecDepth 100000 in
/-- The reference JSON layer reads the header of an HS256 token back. -/
theorem jsonDeps_header :
    ∃ header, jsonDeps.unmarshalHeader (jsonDeps.marshalHeader hs256Header) = .ok header
      ∧ header.alg = some (str "HS256") :=
  ⟨hs256Header, by decide, by decide⟩

/-- The header and the claims of a token that `GenerateToken` issues are read
back by the reference JSON layer, for every user id of `uint64`, every ttl, clock readings in the range of
`int64` nanoseconds, and every email that is valid UTF-8. -/
theorem jsonDeps_readsBack_of_valid (t0 t1 t2 : Int) (userID : Nat) (email : Bytes)
    (expire : Int) (huser : userID < 2 ^ 64) (hemail : ValidString email = true)
    (h0 : -2 ^ 63 ≤ t0 ∧ t0 < 2 ^ 63) (h1 : -2 ^ 63 ≤ t1 ∧ t1 < 2 ^ 63)
    (h2 : -2 ^ 63 ≤ t2 ∧ t2 < 2 ^ 63) :
    jsonDeps.readsBack (issuedClaims t0 t1 t2 userID email expire)
      (issuedClaims t0 t1 t2 userID email expire) := by
  unfold Deps.readsBack
  refine ⟨jsonDeps_header, ?_⟩
  rw [jsonDeps_unmarshalClaims, jsonDeps_marshalClaims]
  exact unmarshalClaims_marshalClaims_issued t0 t1 t2 userID email expire huser hemail h0 h1 h2

/-- The reference JSON layer reads back the claims `GenerateToken` declares,
for every user id of `uint64`, every ttl, clock readings in the range of
`int64` nanoseconds, and every email that is valid UTF-8. -/
theorem jsonDeps_readsBack_issued (t0 t1 t2 : Int) (userID : Nat) (email : Bytes)
    (expire : Int) (huser : userID < 2 ^ 64) (hemail : ValidString email = true)
    (h0 : -2 ^ 63 ≤ t0 ∧ t0 < 2 ^ 63) (h1 : -2 ^ 63 ≤ t1 ∧ t1 < 2 ^ 63)
    (h2 : -2 ^ 63 ≤ t2 ∧ t2 < 2 ^ 63) :
    jsonDeps.readsBack (issuedClaims t0 t1 t2 userID email expire)
      (issuedClaims t0 t1 t2 userID email expire) :=
  jsonDeps_readsBack_of_valid t0 t1 t2 userID email expire huser hemail h0 h1 h2

set_option maxRecDepth 100000 in
theorem jsonDeps_readsBack_issued_witness :
    (7 : Nat) < 2 ^ 64 ∧ ValidString [0xC3, 0xA9, 64, 98, 46, 99] = true
      ∧ (-2 ^ 63 ≤ (1700000000000000000 : Int) ∧ (1700000000000000000 : Int) < 2 ^ 63)
      ∧ jsonDeps.readsBack
        (issuedClaims 1700000000000000000 1700000000000000000 1700000000000000000 7
          [0xC3, 0xA9, 64, 98, 46, 99] 3600)
        (issuedClaims 1700000000000000000 1700000000000000000 1700000000000000000 7
          [0xC3, 0xA9, 64, 98, 46, 99] 3600) :=
  ⟨by decide, by decide, by decide,
    jsonDeps_readsBack_issued 1700000000000000000 1700000000000000000 1700000000000000000 7
      [0xC3, 0xA9, 64, 98, 46, 99] 3600 (by decide) (by decide) (by decide) (by decide)
      (by decide)⟩

/-- With the reference JSON layer, a token that `GenerateToken` issues for a
user id of `uint64` and an email that is valid UTF-8, at clock readings in the
range of `int64` nanoseconds, and that `ParseToken` verifies with the same
secret at a time not before the issue and before the expiry, gives back the
claims that were issued. -/
theorem parseToken_generateToken_valid (t0 t1 t2 now : Int) (userID : Nat) (email : Bytes)
    (expire : Int) (secret : Bytes) (huser : userID < 2 ^ 64)
    (hemail : ValidString email = true)
    (h0 : -2 ^ 63 ≤ t0 ∧ t0 < 2 ^ 63) (h1 : -2 ^ 63 ≤ t1 ∧ t1 < 2 ^ 63)
    (h2 : -2 ^ 63 ≤ t2 ∧ t2 < 2 ^ 63)
    (hissued : t2 ≤ now)
    (hexp : now < NewNumericDate (t0 + secondsDuration expire)) :
    ∃ tokenString, GenerateToken jsonDeps t0 t1 t2 userID email expire secret = .ok tokenString
      ∧ ParseToken jsonDeps now tokenString secret
        = .ok (issuedClaims t0 t1 t2 userID email expire) := by
  refine ⟨_, generateToken_eq .., ?_⟩
  rw [parseToken_signedStringOf jsonDeps now _ _ secret secret
    (jsonDeps_readsBack_of_valid t0 t1 t2 userID email expire huser hemail h0 h1 h2), if_pos rfl]
  have hv := (validate_none_iff (issuedClaims t0 t1 t2 userID email expire) now _ _
    (issuedClaims_expiresAt ..) (issuedClaims_notBefore ..)).2
    ⟨le_trans (truncateSecond_le t2) hissued, hexp⟩
  rw [hv]

set_option maxRecDepth 100000 in
theorem parseToken_generateToken_valid_witness :
    (7 : Nat) < 2 ^ 64 ∧ ValidString [0xC3, 0xA9, 64, 98, 46, 99] = true
      ∧ (-2 ^ 63 ≤ (1700000000000000000 : Int) ∧ (1700000000000000000 : Int) < 2 ^ 63)
      ∧ (1700000000000000000 : Int) ≤ 1700000000500000000
      ∧ (1700000000500000000 : Int) < NewNumericDate (1700000000000000000 + secondsDuration 3600)
      ∧ ∃ tokenString,
          GenerateToken jsonDeps 1700000000000000000 1700000000000000000 1700000000000000000 7
            [0xC3, 0xA9, 64, 98, 46, 99] 3600 (str "secret") = .ok tokenString
          ∧ ParseToken jsonDeps 1700000000500000000 tokenString (str "secret")
            = .ok (issuedClaims 1700000000000000000 1700000000000000000 1700000000000000000 7
              [0xC3, 0xA9, 64, 98, 46, 99] 3600) :=
  ⟨by decide, by decide, by decide, by decide, by decide,
    parseToken_generateToken_valid 1700000000000000000 1700000000000000000
      1700000000000000000 1700000000500000000 7 [0xC3, 0xA9, 64, 98, 46, 99] 3600 (str "secret")
      (by decide) (by decide) (by decide) (by decide) (by decide) (by decide) (by decide)⟩

/-! ### The reference JSON layer: every email -/

/-- The reference layer reads every string it wrote: as it was, or with U+FFFD
where it was not UTF-8. -/
theorem readString_escapeLoop_total (rest : Bytes) (fuel : Nat) :
    ∀ s : Bytes, s.length ≤ fuel →
      ∃ s', readString (escapeLoop fuel s ++ 34 :: rest) = some (s', rest) := by
  have hend : readString (34 :: rest) = some ([], rest) := by
    rw [readString.eq_def]
    rfl
  induction fuel with
  | zero =>
    intro s hs
    have : s = [] := List.length_eq_zero.1 (by omega)
    subst this
    exact ⟨[], hend⟩
  | succ fuel ih =>
    intro s hs
    match s with
    | [] => exact ⟨[], hend⟩
    | b0 :: rest0 =>
      have hlen : rest0.length ≤ fuel := by simpa using hs
      have hdrop : ∀ n, ∃ s', readString (escapeLoop fuel (rest0.drop n) ++ 34 :: rest)
          = some (s', rest) := fun n => ih _ (by rw [List.length_drop]; omega)
      unfold escapeLoop
      by_cases hb : b0.val < 0x80
      · obtain ⟨d, hd⟩ := ih rest0 hlen
        rw [if_pos hb, List.append_assoc]
        exact ⟨_, readString_escapeASCII b0 hb _ _ _ hd⟩
      · rw [if_neg hb]
        by_cases hz : runeSize (b0 :: rest0) = 0
        · obtain ⟨d, hd⟩ := ih rest0 hlen
          rw [if_pos hz]
          show ∃ s', readString (92 :: 117 :: 102 :: 102 :: 102 :: 100 ::
            (escapeLoop fuel rest0 ++ 34 :: rest)) = some (s', rest)
          rw [readString_unicode 102 102 102 100 15 15 15 13 _ (by decide) (by decide)
            (by decide) (by decide), hd]
          exact ⟨_, rfl⟩
        · rw [if_neg hz]
          obtain ⟨_, hraw⟩ := runeSize_spec (b0 :: rest0) hz
          by_cases h8 : (b0 :: rest0).take 3 = [0xE2, 0x80, 0xA8]
          · obtain ⟨d, hd⟩ := hdrop 2
            rw [if_pos h8]
            show ∃ s', readString (92 :: 117 :: 50 :: 48 :: 50 :: 56 ::
              (escapeLoop fuel (rest0.drop 2) ++ 34 :: rest)) = some (s', rest)
            rw [readString_unicode 50 48 50 56 2 0 2 8 _ (by decide) (by decide) (by decide)
              (by decide), hd]
            exact ⟨_, rfl⟩
          · rw [if_neg h8]
            by_cases h9 : (b0 :: rest0).take 3 = [0xE2, 0x80, 0xA9]
            · obtain ⟨d, hd⟩ := hdrop 2
              rw [if_pos h9]
              show ∃ s', readString (92 :: 117 :: 50 :: 48 :: 50 :: 57 ::
                (escapeLoop fuel (rest0.drop 2) ++ 34 :: rest)) = some (s', rest)
              rw [readString_unicode 50 48 50 57 2 0 2 9 _ (by decide) (by decide) (by decide)
                (by decide), hd]
              exact ⟨_, rfl⟩
            · obtain ⟨d, hd⟩ := hdrop (runeSize (b0 :: rest0) - 1)
              rw [if_neg h9, List.append_assoc]
              exact ⟨_, readString_raw _ hraw _ _ _ hd⟩

theorem readQuoted_marshalString_total (s rest : Bytes) :
    ∃ s', readQuoted (marshalString s ++ rest) = some (s', rest) := by
  show ∃ s', readString ((escapeString s ++ [34]) ++ rest) = _
  rw [List.append_assoc]
  exact readString_escapeLoop_total rest s.length s (le_refl _)

set_option maxRecDepth 100000 in
/-- The reference layer reads the claims `GenerateToken` declares back for every
email, the email included or with U+FFFD where it is not UTF-8, and the other
claims as they were written. -/
theorem unmarshalClaims_marshalClaims_total (t0 t1 t2 : Int) (userID : Nat) (email : Bytes)
    (expire : Int) (huser : userID < 2 ^ 64)
    (h0 : -2 ^ 63 ≤ t0 ∧ t0 < 2 ^ 63) (h1 : -2 ^ 63 ≤ t1 ∧ t1 < 2 ^ 63)
    (h2 : -2 ^ 63 ≤ t2 ∧ t2 < 2 ^ 63) :
    ∃ email', unmarshalClaims (marshalClaims (issuedClaims t0 t1 t2 userID email expire))
      = .ok (issuedClaims t0 t1 t2 userID email' expire) := by
  have hcomma : ¬ (48 ≤ (44 : Byte).val ∧ (44 : Byte).val ≤ 57) := by decide
  have hbrace : ¬ (48 ≤ (125 : Byte).val ∧ (125 : Byte).val ≤ 57) := by decide
  have hq : ∀ s : Bytes, marshalString s = 34 :: (escapeString s ++ [34]) := fun _ => rfl
  have hw := wrapInt64_range (expire * Second)
  obtain ⟨email', hemail⟩ := readQuoted_marshalString_total email
    (44 :: (marshalString (str "iss") ++ 58 :: (marshalString (str "sport-user")
        ++ 44 :: (marshalString (str "exp") ++ 58 ::
          (marshalNumericDate (NewNumericDate (t0 + secondsDuration expire))
        ++ 44 :: (marshalString (str "nbf") ++ 58 :: (marshalNumericDate (NewNumericDate t2)
        ++ 44 :: (marshalString (str "iat") ++ 58 :: (marshalNumericDate (NewNumericDate t1)
        ++ [125])))))))))
  refine ⟨email', ?_⟩
  rw [marshalClaims_issued]
  unfold unmarshalClaims readObject
  simp only
  rw [if_pos (by decide), if_neg (by rw [hq]; simp)]
  generalize hL : List.length _ = L
  have hL6 : 6 ≤ L := by
    rw [← hL]
    simp only [List.length_append, List.length_cons, hq]
    omega
  obtain ⟨fuel, rfl⟩ : ∃ fuel, L = fuel + 6 := ⟨L - 6, by omega⟩
  clear hL hL6
  rw [readMembers_more readClaim _ (str "user_id") _ _ _ _ (by decide)
    (by
      show (readNat _).bind _ = _
      rw [readNat_itoa _ _ _ hcomma]
      simp only [Option.some_bind]
      rw [if_pos huser]) (marshalString_append_ne_nil _ _)]
  rw [readMembers_more readClaim _ (str "email") _ _ _ _ (by decide)
    (by
      show (readQuoted _).map _ = _
      rw [hemail]
      rfl) (marshalString_append_ne_nil _ _)]
  rw [readMembers_more readClaim _ (str "iss") _ _ _ _ (by decide)
    (by
      rw [readClaim_iss, readQuoted_marshalString _ _ (by decide)]
      rfl) (marshalString_append_ne_nil _ _)]
  rw [readMembers_more readClaim _ (str "exp") _ _ _ _ (by decide)
    (by
      rw [readClaim_exp, readNumericDate_marshal _ _ _ hcomma
        (seconds_range _ (by unfold secondsDuration; omega))]
      rfl) (marshalString_append_ne_nil _ _)]
  rw [readMembers_more readClaim _ (str "nbf") _ _ _ _ (by decide)
    (by
      rw [readClaim_nbf, readNumericDate_marshal _ _ _ hcomma (seconds_range _ (by omega))]
      rfl) (marshalString_append_ne_nil _ _)]
  rw [readMembers_last readClaim _ (str "iat") _ _ _ (by decide)
    (by
      rw [readClaim_iat, readNumericDate_marshal _ _ _ hbrace (seconds_range _ (by omega))]
      rfl)]
  rfl

/-- The header and the claims of every token that `GenerateToken` issues are
read back by the reference JSON layer, with the dates as they were written. -/
theorem jsonDeps_readsBack_total (t0 t1 t2 : Int) (userID : Nat) (email : Bytes)
    (expire : Int) (huser : userID < 2 ^ 64)
    (h0 : -2 ^ 63 ≤ t0 ∧ t0 < 2 ^ 63) (h1 : -2 ^ 63 ≤ t1 ∧ t1 < 2 ^ 63)
    (h2 : -2 ^ 63 ≤ t2 ∧ t2 < 2 ^ 63) :
    ∃ email', jsonDeps.readsBack (issuedClaims t0 t1 t2 userID email expire)
      (issuedClaims t0 t1 t2 userID email' expire) := by
  obtain ⟨email', h⟩ := unmarshalClaims_marshalClaims_total t0 t1 t2 userID email expire huser
    h0 h1 h2
  refine ⟨email', ?_⟩
  unfold Deps.readsBack
  refine ⟨jsonDeps_header, ?_⟩
  rw [jsonDeps_unmarshalClaims, jsonDeps_marshalClaims]
  exact h

/-- With the reference JSON layer, the window in which `ParseToken` accepts a
token that `GenerateToken` issued is the same for every email, UTF-8 or not:
from not-before, inclusive, to the expiry, exclusive. -/
theorem parseToken_window_every_email (t0 t1 t2 now : Int) (userID : Nat) (email : Bytes)
    (expire : Int) (secret : Bytes) (huser : userID < 2 ^ 64)
    (h0 : -2 ^ 63 ≤ t0 ∧ t0 < 2 ^ 63) (h1 : -2 ^ 63 ≤ t1 ∧ t1 < 2 ^ 63)
    (h2 : -2 ^ 63 ≤ t2 ∧ t2 < 2 ^ 63) :
    ∃ tokenString, GenerateToken jsonDeps t0 t1 t2 userID email expire secret = .ok tokenString
      ∧ ((∃ claims, ParseToken jsonDeps now tokenString secret = .ok claims)
          ↔ NewNumericDate t2 ≤ now ∧ now < NewNumericDate (t0 + secondsDuration expire))
      ∧ (NewNumericDate (t0 + secondsDuration expire) ≤ now →
          ∃ err, ParseToken jsonDeps now tokenString secret = .error err
            ∧ err.Is ErrTokenExpired = true)
      ∧ (now < NewNumericDate t2 →
          ∃ err, ParseToken jsonDeps now tokenString secret = .error err
            ∧ err.Is ErrTokenNotValidYet = true) := by
  obtain ⟨email', hD⟩ := jsonDeps_readsBack_total t0 t1 t2 userID email expire huser h0 h1 h2
  have he := issuedClaims_expiresAt t0 t1 t2 userID email' expire
  have hn := issuedClaims_notBefore t0 t1 t2 userID email' expire
  refine ⟨_, generateToken_eq .., ?_, ?_, ?_⟩
  · rw [parseToken_signedStringOf jsonDeps now _ _ secret secret hD, if_pos rfl,
      ← validate_none_iff _ now _ _ he hn]
    cases Validate (issuedClaims t0 t1 t2 userID email' expire) now with
    | none => simp
    | some e => simp
  · intro h
    obtain ⟨e, hv, hIs⟩ := validate_expired _ now _ he h
    rw [parseToken_signedStringOf jsonDeps now _ _ secret secret hD, if_pos rfl, hv]
    exact ⟨_, rfl, newError_is _ _ _ _ ⟨e, by simp, hIs⟩⟩
  · intro h
    obtain ⟨e, hv, hIs⟩ := validate_notYet _ now _ hn h
    rw [parseToken_signedStringOf jsonDeps now _ _ secret secret hD, if_pos rfl, hv]
    exact ⟨_, rfl, newError_is _ _ _ _ ⟨e, by simp, hIs⟩⟩

set_option maxRecDepth 100000 in
theorem parseToken_window_every_email_witness :
    (7 : Nat) < 2 ^ 64
      ∧ (-2 ^ 63 ≤ (1700000000000000000 : Int) ∧ (1700000000000000000 : Int) < 2 ^ 63)
      ∧ ∃ tokenString,
          GenerateToken jsonDeps 1700000000000000000 1700000000000000000 1700000000000000000 7
            [0xff, 0x40] 3600 (str "secret") = .ok tokenString
          ∧ ((∃ claims, ParseToken jsonDeps 1700000000000000000 tokenString (str "secret")
                = .ok claims)
              ↔ NewNumericDate 1700000000000000000 ≤ 1700000000000000000
                ∧ 1700000000000000000
                  < NewNumericDate (1700000000000000000 + secondsDuration 3600))
          ∧ (NewNumericDate (1700000000000000000 + secondsDuration 3600) ≤ 1700000000000000000 →
              ∃ err, ParseToken jsonDeps 1700000000000000000 tokenString (str "secret")
                  = .error err ∧ err.Is ErrTokenExpired = true)
          ∧ (1700000000000000000 < NewNumericDate 1700000000000000000 →
              ∃ err, ParseToken jsonDeps 1700000000000000000 tokenString (str "secret")
                  = .error err ∧ err.Is ErrTokenNotValidYet = true) :=
  ⟨by decide, by decide,
    parseToken_window_every_email 1700000000000000000 1700000000000000000 1700000000000000000
      1700000000000000000 7 [0xff, 0x40] 3600 (str "secret") (by decide) (by decide) (by decide)
      (by decide)⟩

end SportCommon
